import Mathlib

set_option maxHeartbeats 1000000
set_option maxRecDepth 100000

/-!
Shallow embedding of the `simpleSVG` annotation-transfer module
(`src/__init__.py`) and verification of its specified properties.

Documents are modelled as `List Char` (the raw text Python manipulates).
The XML tree that Python obtains from `xml.etree.ElementTree.fromstring`
is modelled abstractly by the `Element` type below: the parser itself is
Python's standard library (outside this repository), so theorems quantify
over all trees, and concrete scenarios supply the tree that the standard
parser produces for the concrete document.

The regular expressions of the source are embedded as explicit
backtracking matchers over `List Char`, following Python `re` semantics
(leftmost match; greedy and lazy quantifiers with backtracking).  Note the
source builds its patterns inside *raw* strings, so `"[\\w:-]"` denotes
the character class containing a literal backslash, `w`, `:` and `-`, and
`"</\\1>"` denotes the five literal characters `<`, `/`, backslash, `1`,
`>` (an escaped backslash followed by a literal digit, not a
backreference).  The embedding reproduces this faithfully.  Python's
`\b` word boundary is modelled for the ASCII word characters
(letters, digits, underscore) that occur in SVG tag names.
-/

namespace SimpleSVG

/-! ### Basic text helpers (Python `str.find`, `str.rfind`, `re.search` scaffolding) -/

/-- Python `s.find(sub)`: index of leftmost occurrence of `sub` in `s`. -/
def findSub (s sub : List Char) : Option Nat :=
  if sub.isPrefixOf s then some 0
  else
    match s with
    | [] => none
    | _ :: rest => (findSub rest sub).map (fun i => i + 1)

/-- Python `s.rfind(sub, 0, stop)`: index of the rightmost occurrence of
`sub` that lies entirely inside `s[0:stop]`, if any. -/
def rfindSub (s sub : List Char) (stop : Nat) : Option Nat :=
  ((List.range stop).filter
    (fun i => decide (i + sub.length ≤ stop) && sub.isPrefixOf (s.drop i))).getLast?

/-- Leftmost-match driver for a matcher `f` that reports the length matched
at a given position: Python `re.search` tries each start offset in turn. -/
def searchPat (f : List Char → Option Nat) (s : List Char) : Option (Nat × Nat) :=
  match f s with
  | some n => some (0, n)
  | none =>
    match s with
    | [] => none
    | _ :: rest => (searchPat f rest).map (fun pr => (pr.1 + 1, pr.2))

/-! ### The XML tree view (interface to `xml.etree.ElementTree`) -/

/-- An element of the parsed tree: tag, attribute list (attribute order is
document order, keys unique for actual parses), children. -/
inductive Element : Type where
  | mk (tag : List Char) (attrib : List (List Char × List Char)) (children : List Element)

mutual
def elementDecEq : (a b : Element) → Decidable (a = b)
  | .mk t1 a1 c1, .mk t2 a2 c2 =>
    if ht : t1 = t2 then
      if ha : a1 = a2 then
        match elementListDecEq c1 c2 with
        | isTrue hc => isTrue (by rw [ht, ha, hc])
        | isFalse hc => isFalse (fun h => by cases h; exact hc rfl)
      else isFalse (fun h => by cases h; exact ha rfl)
    else isFalse (fun h => by cases h; exact ht rfl)
def elementListDecEq : (a b : List Element) → Decidable (a = b)
  | [], [] => isTrue rfl
  | [], _ :: _ => isFalse (by simp)
  | _ :: _, [] => isFalse (by simp)
  | x :: xs, y :: ys =>
    match elementDecEq x y, elementListDecEq xs ys with
    | isTrue h1, isTrue h2 => isTrue (by rw [h1, h2])
    | isFalse h1, _ => isFalse (fun h => by cases h; exact h1 rfl)
    | _, isFalse h2 => isFalse (fun h => by cases h; exact h2 rfl)
end

instance : DecidableEq Element := elementDecEq

def Element.tag : Element → List Char
  | .mk t _ _ => t

def Element.attrib : Element → List (List Char × List Char)
  | .mk _ a _ => a

def Element.children : Element → List Element
  | .mk _ _ cs => cs

/-- `element.get(key)` on the attribute dictionary. -/
def Element.get (e : Element) (key : List Char) : Option (List Char) :=
  (e.attrib.find? (fun p => p.1 == key)).map (fun p => p.2)

-- `root.iter()`: the element itself followed by all descendants, depth first.
mutual
def iterElems : Element → List Element
  | .mk t a cs => .mk t a cs :: iterElemsList cs
def iterElemsList : List Element → List Element
  | [] => []
  | e :: es => iterElems e ++ iterElemsList es
end

-- `root.iter()` paired with each element's ancestor chain (nearest parent
-- first), which is what the `parent_map` walk of the source computes: the
-- source builds `parent_map = {child: parent ...}` and repeatedly looks the
-- parent up, which for the identity-distinct elements of a parse yields
-- exactly this chain.
mutual
def iterWithAncestors (anc : List Element) : Element → List (Element × List Element)
  | .mk t a cs => (.mk t a cs, anc) :: iterWithAncestorsList (.mk t a cs :: anc) cs
def iterWithAncestorsList (anc : List Element) : List Element → List (Element × List Element)
  | [] => []
  | e :: es => iterWithAncestors anc e ++ iterWithAncestorsList anc es
end

/-! ### `_local_name`, `_ensure_trailing_newline` -/

def rbraceChar : Char := Char.ofNat 125

/-- `tag.split("}")[-1] if "}" in tag else tag`. -/
def local_name (tag : List Char) : List Char :=
  if tag.contains rbraceChar then (tag.reverse.takeWhile (fun c => !(c == rbraceChar))).reverse
  else tag

/-- `text if text.endswith("\n") else text + "\n"`. -/
def ensure_trailing_newline (text : List Char) : List Char :=
  if text.getLast? == some '\n' then text else text ++ ['\n']

/-! ### `_extract_single_tag_with_pos`

The source pattern is the raw string
`r"<([\\w:-]+)[^>]*id=\"%s\"[^>]*?(?:/>|>.*?</\\1>)"` with `re.DOTALL`.
Because it is a raw string, `[\\w:-]` is the class of the four characters
backslash, `w`, `:`, `-`, and `</\\1>` is the literal five-character text
`<`, `/`, backslash, `1`, `>` rather than a backreference. -/

/-- The character class written `[\\w:-]` inside the source's raw strings. -/
def rawClassChar (c : Char) : Bool :=
  c == '\\' || c == 'w' || c == ':' || c == '-'

/-- `id="<element_id>"` (the source interpolates `re.escape(element_id)`,
which matches `element_id` literally). -/
def idToken (element_id : List Char) : List Char :=
  "id=\"".toList ++ element_id ++ "\"".toList

/-- The literal five characters denoted by `</\\1>` in the raw-string pattern. -/
def backrefLiteral : List Char := "</\\1>".toList

/-- Tail of the single-tag pattern after the id token:
lazy `[^>]*?` then the alternation `(?:/>|LITERAL)`; lazy quantifiers try
the shortest extension first, and `[^>]` never consumes `>`. -/
def singleTail : List Char → Option Nat
  | '/' :: '>' :: _ => some 2
  | '>' :: rest =>
    match findSub rest backrefLiteral with
    | some m => some (1 + m + backrefLiteral.length)
    | none => none
  | _ :: rest => (singleTail rest).map (fun n => n + 1)
  | [] => none

/-- Greedy `[^>]*` followed by the literal id token followed by
`singleTail`: longest consumption is tried first, falling back to matching
the token at the current position. -/
def singleMid (idTok : List Char) : List Char → Option Nat
  | [] => none
  | c :: rest =>
    if c == '>' then
      if idTok.isPrefixOf (c :: rest) then
        (singleTail ((c :: rest).drop idTok.length)).map (fun n => idTok.length + n)
      else none
    else
      match singleMid idTok rest with
      | some n => some (n + 1)
      | none =>
        if idTok.isPrefixOf (c :: rest) then
          (singleTail ((c :: rest).drop idTok.length)).map (fun n => idTok.length + n)
        else none

/-- Greedy continuation of the `([\\w:-]+)` group: consume further class
characters first, else continue with `singleMid`. -/
def singleG1Rest (idTok : List Char) : List Char → Option Nat
  | [] => singleMid idTok []
  | c :: rest =>
    if rawClassChar c then
      match singleG1Rest idTok rest with
      | some n => some (n + 1)
      | none => singleMid idTok (c :: rest)
    else singleMid idTok (c :: rest)

/-- Whole single-tag pattern anchored at the current position. -/
def matchSingleAt (idTok : List Char) : List Char → Option Nat
  | '<' :: c :: rest =>
    if rawClassChar c then (singleG1Rest idTok rest).map (fun n => n + 2) else none
  | _ => none

/-- `_extract_single_tag_with_pos(svg_text, element_id)`:
`pattern.search` then `(match.group(0), match.start())`. -/
def extract_single_tag_with_pos (svg_text element_id : List Char) :
    Option (List Char × Nat) :=
  match searchPat (matchSingleAt (idToken element_id)) svg_text with
  | none => none
  | some (st, len) => some ((svg_text.drop st).take len, st)

/-! ### `_extract_tag_block_with_pos` (depth-tracked block extraction, `tag="g"`,
the only tag the source ever passes) -/

def isWordChar (c : Char) : Bool := c.isAlphanum || c == '_'

def headIsWord : List Char → Bool
  | [] => false
  | c :: _ => isWordChar c

def findGt (s : List Char) : Option Nat := findSub s ['>']

/-- The `for match in re.finditer(r"</?g\b", segment)` depth loop:
open tokens increment, close tokens decrement, and the block ends at the
first `>` at or after the close token that brings the depth to zero.
Returns the length of the block from the current position. -/
def scanBlock : List Char → Int → Option Nat
  | '<' :: '/' :: 'g' :: rest, d =>
    if headIsWord rest then (scanBlock ('/' :: 'g' :: rest) d).map (fun n => n + 1)
    else if d - 1 = 0 then (findGt ('<' :: '/' :: 'g' :: rest)).map (fun j => j + 1)
    else (scanBlock rest (d - 1)).map (fun n => n + 3)
  | '<' :: 'g' :: rest, d =>
    if headIsWord rest then (scanBlock ('g' :: rest) d).map (fun n => n + 1)
    else (scanBlock rest (d + 1)).map (fun n => n + 2)
  | _ :: rest, d => (scanBlock rest d).map (fun n => n + 1)
  | [], _ => none

/-- `_extract_tag_block_with_pos(svg_text, element_id, tag="g")`. -/
def extract_tag_block_with_pos (svg_text element_id : List Char) :
    Option (List Char × Nat) :=
  match findSub svg_text (idToken element_id) with
  | none => none
  | some idPos =>
    match rfindSub svg_text "<g".toList idPos with
    | none => none
    | some openStart =>
      match scanBlock (svg_text.drop openStart) 0 with
      | none => none
      | some len => some ((svg_text.drop openStart).take len, openStart)

/-! ### `_looks_like_matplotlib_group` and candidate discovery -/

def asciiLower (c : Char) : Char :=
  if 'A' ≤ c && c ≤ 'Z' then Char.ofNat (c.toNat + 32) else c

/-- `group_id.lower()` (the prefixes compared against are ASCII). -/
def lowerStr (s : List Char) : List Char := s.map asciiLower

def MATPLOTLIB_PREFIXES : List (List Char) :=
  ["figure_", "axes_", "patch_", "legend_", "line", "xtick_", "ytick_",
   "matplotlib.axis_", "polycollection_", "pathcollection_", "streamplot_",
   "quiver_", "table_", "text_", "image_", "spine_", "pane_", "eventplot_",
   "barcontainer_", "mpl_toolkits"].map String.toList

def looks_like_matplotlib_group (group_id : List Char) : Bool :=
  MATPLOTLIB_PREFIXES.any (fun p => p.isPrefixOf (lowerStr group_id))

structure CandidateGroup where
  group_id : List Char
  element : Element
  snippet : List Char
  start : Nat
  /-- the Python dataclass field `end` (a Lean keyword) -/
  stop : Nat
deriving DecidableEq

def figureId : List Char := "figure_1".toList

def idKey : List Char := "id".toList

/-- the ancestor test of the discovery loop:
`pid and (pid == 'figure_1' or _looks_like_matplotlib_group(pid))`. -/
def badAncestorId (p : Element) : Bool :=
  match p.get idKey with
  | some pid => !(pid == []) && (pid == figureId || looks_like_matplotlib_group pid)
  | none => false

/-- `len(element.attrib) == 1 and element.attrib.get('id')` (truthiness). -/
def truthyGet (e : Element) (key : List Char) : Bool :=
  match e.get key with
  | some v => !(v == [])
  | none => false

/-- The body of the discovery loop for one element (with its ancestor
chain), in source order of the checks. -/
def candidateOfNode (svg_text : List Char) (pr : Element × List Element) :
    Option CandidateGroup :=
  if !(local_name pr.1.tag == "g".toList) then none
  else
    match pr.1.get idKey with
    | none => none
    | some gid =>
      if gid == [] then none
      else if gid == figureId then none
      else if looks_like_matplotlib_group gid then none
      else if pr.2.any badAncestorId then none
      else if pr.1.attrib.length == 1 && truthyGet pr.1 idKey then none
      else
        match extract_tag_block_with_pos svg_text gid with
        | none => none
        | some (snip, st) =>
          if (findSub snip (idToken figureId)).isSome then none
          else some ⟨gid, pr.1, snip, st, st + snip.length⟩

/-- Stable insertion step for `raw_candidates.sort(key=lambda cand: cand.start)`. -/
def insertByStart (c : CandidateGroup) : List CandidateGroup → List CandidateGroup
  | [] => [c]
  | d :: ds => if c.start ≤ d.start then c :: d :: ds else d :: insertByStart c ds

def sortCandidatesByStart : List CandidateGroup → List CandidateGroup
  | [] => []
  | c :: cs => insertByStart c (sortCandidatesByStart cs)

/-- The containment-pruning loop: a candidate is dropped when its span is
contained in the span of an already kept candidate. -/
def pruneContained (kept : List CandidateGroup) : List CandidateGroup → List CandidateGroup
  | [] => kept
  | c :: cs =>
    if kept.any (fun e => decide (e.start ≤ c.start) && decide (c.stop ≤ e.stop)) then
      pruneContained kept cs
    else pruneContained (kept ++ [c]) cs

/-- `_discover_candidate_groups(root, svg_text)`. -/
def discover_candidate_groups (root : Element) (svg_text : List Char) :
    List CandidateGroup :=
  pruneContained []
    (sortCandidatesByStart ((iterWithAncestors [] root).filterMap (candidateOfNode svg_text)))

/-! ### `_collect_referenced_ids` -/

def urlOpen : List Char := "url(#".toList

/-- Structural worker for `urlRefs`: `fuel` bounds the number of scan
steps; every step advances at least one character, so `fuel = length`
suffices (structural recursion keeps the function kernel-reducible). -/
def urlRefsAux : Nat → List Char → List (List Char)
  | 0, _ => []
  | _, [] => []
  | fuel + 1, c :: rest =>
    if urlOpen.isPrefixOf (c :: rest) then
      let body := (rest.drop 4).takeWhile (fun ch => !(ch == ')'))
      if 1 ≤ body.length && ((rest.drop (4 + body.length)).head? == some ')') then
        body :: urlRefsAux fuel (rest.drop (4 + body.length + 1))
      else urlRefsAux fuel rest
    else urlRefsAux fuel rest

/-- `re.findall(r"url\(#([^\)]+)\)", value)`: non-overlapping matches left
to right, each capturing the nonempty run between `url(#` and `)`. -/
def urlRefs (value : List Char) : List (List Char) :=
  urlRefsAux value.length value

def REF_ATTRS : List (List Char) :=
  ["marker-start", "marker-mid", "marker-end", "filter", "clip-path"].map String.toList

/-- `"path-effect" in attr or attr in {...}`. -/
def isRefAttrName (attr : List Char) : Bool :=
  (findSub attr "path-effect".toList).isSome || REF_ATTRS.contains attr

/-- Appending with the `seen` set of the source (the list and the set
always hold the same ids, so membership in the list is the same test). -/
def addRef (acc : List (List Char)) (r : List Char) : List (List Char) :=
  if acc.contains r then acc else acc ++ [r]

/-- `_collect_referenced_ids(element)`. -/
def collect_referenced_ids (element : Element) : List (List Char) :=
  (iterElems element).foldl
    (fun acc node =>
      node.attrib.foldl
        (fun acc2 av =>
          let acc3 := (urlRefs av.2).foldl addRef acc2
          if isRefAttrName av.1 && (av.2.head? == some '#') then addRef acc3 (av.2.drop 1)
          else acc3)
        acc)
    []

/-! ### The merge engine: `_insert_or_replace_definition`, `_insert_or_replace_group`

The replacement patterns are
`r"[ \t]*<[\\w:-]+[^>]*id=\"%s\"[^>]*?(?:/>|>.*?</[\\w:-]+>)\n?"` (definitions) and
`r"[ \t]*<g[^>]*id=\"%s\"[^>]*>.*?</g>\n?"` (groups), both with `re.DOTALL`;
again `[\\w:-]` in the raw strings is the four-character class. -/

def isSpaceOrTab (c : Char) : Bool := c == ' ' || c == '\t'

/-- `</[\\w:-]+>` anchored at the current position (greedy class run, then `>`). -/
def closeAnyTagAt : List Char → Option Nat
  | '<' :: '/' :: rest =>
    let r := (rest.takeWhile rawClassChar).length
    if 1 ≤ r && ((rest.drop r).head? == some '>') then some (2 + r + 1) else none
  | _ => none

/-- Tail of the definition pattern after the id token: lazy `[^>]*?` then
`(?:/>|>.*?</[\\w:-]+>)`. -/
def defTail : List Char → Option Nat
  | '/' :: '>' :: _ => some 2
  | '>' :: rest =>
    match searchPat closeAnyTagAt rest with
    | some (m, len) => some (1 + m + len)
    | none => none
  | _ :: rest => (defTail rest).map (fun n => n + 1)
  | [] => none

/-- Greedy `[^>]*` then the id token then `defTail`. -/
def defMid (idTok : List Char) : List Char → Option Nat
  | [] => none
  | c :: rest =>
    if c == '>' then
      if idTok.isPrefixOf (c :: rest) then
        (defTail ((c :: rest).drop idTok.length)).map (fun n => idTok.length + n)
      else none
    else
      match defMid idTok rest with
      | some n => some (n + 1)
      | none =>
        if idTok.isPrefixOf (c :: rest) then
          (defTail ((c :: rest).drop idTok.length)).map (fun n => idTok.length + n)
        else none

/-- Greedy continuation of `<[\\w:-]+`. -/
def defG1Rest (idTok : List Char) : List Char → Option Nat
  | [] => defMid idTok []
  | c :: rest =>
    if rawClassChar c then
      match defG1Rest idTok rest with
      | some n => some (n + 1)
      | none => defMid idTok (c :: rest)
    else defMid idTok (c :: rest)

/-- The whole definition-replacement pattern anchored at the current
position: `[ \t]*` prefix, the tag body, then the optional trailing `\n`. -/
def matchDefAt (idTok : List Char) (s : List Char) : Option Nat :=
  let w := (s.takeWhile isSpaceOrTab).length
  match s.drop w with
  | '<' :: c :: rest =>
    if rawClassChar c then
      match defG1Rest idTok rest with
      | none => none
      | some n =>
        if ((s.drop (w + 2 + n)).head? == some '\n') then some (w + 2 + n + 1)
        else some (w + 2 + n)
    else none
  | _ => none

/-- Tail of the group pattern after the id token: `[^>]*>` consumes up to
and including the first `>`, then lazy `.*?` stops at the first `</g>`. -/
def grpTail (u : List Char) : Option Nat :=
  match findSub u ['>'] with
  | none => none
  | some i =>
    match findSub (u.drop (i + 1)) "</g>".toList with
    | none => none
    | some m => some (i + 1 + m + 4)

/-- Greedy `[^>]*` then the id token then `grpTail`. -/
def grpMid (idTok : List Char) : List Char → Option Nat
  | [] => none
  | c :: rest =>
    if c == '>' then
      if idTok.isPrefixOf (c :: rest) then
        (grpTail ((c :: rest).drop idTok.length)).map (fun n => idTok.length + n)
      else none
    else
      match grpMid idTok rest with
      | some n => some (n + 1)
      | none =>
        if idTok.isPrefixOf (c :: rest) then
          (grpTail ((c :: rest).drop idTok.length)).map (fun n => idTok.length + n)
        else none

/-- The whole group-replacement pattern anchored at the current position. -/
def matchGroupAt (idTok : List Char) (s : List Char) : Option Nat :=
  let w := (s.takeWhile isSpaceOrTab).length
  match s.drop w with
  | '<' :: 'g' :: rest =>
    match grpMid idTok rest with
    | none => none
    | some n =>
      if ((s.drop (w + 2 + n)).head? == some '\n') then some (w + 2 + n + 1)
      else some (w + 2 + n)
  | _ => none

/-- The single error type of the module; constructors name the distinct
`AnnotationError` raises that the embedded code can reach. -/
inductive AnnotationError where
  | noCandidates
  | missingDefsClose
  | noInsertionPoint
  | exprNoDirection
  | exprMissingSide
deriving DecidableEq

def DEFS_CLOSE : List Char := "</defs>".toList

def GROUP_MARKER : List Char := "\n </g>\n <defs>".toList

def SVG_CLOSE_MARKER : List Char := "\n</svg>".toList

/-- `"\n" + insertion` when the character before the insertion point is not
a newline (`marker_idx > 0 and dest_text[marker_idx - 1] != "\n"`). -/
def newlineInsertion (dest_text : List Char) (idx : Nat) (prepared : List Char) :
    List Char :=
  if 0 < idx && !((dest_text.drop (idx - 1)).head? == some '\n') then '\n' :: prepared
  else prepared

/-- `_insert_or_replace_definition(dest_text, element_id, snippet)`. -/
def insert_or_replace_definition (dest_text element_id snippet : List Char) :
    Except AnnotationError (List Char × Bool) :=
  let prepared := ensure_trailing_newline snippet
  match searchPat (matchDefAt (idToken element_id)) dest_text with
  | some (st, len) =>
    let new_text := dest_text.take st ++ prepared ++ dest_text.drop (st + len)
    .ok (new_text, !(new_text == dest_text))
  | none =>
    match findSub dest_text DEFS_CLOSE with
    | none => .error .missingDefsClose
    | some closeIdx =>
      .ok (dest_text.take closeIdx ++ newlineInsertion dest_text closeIdx prepared ++
             dest_text.drop closeIdx, true)

/-- `_insert_or_replace_group(dest_text, element_id, snippet)`. -/
def insert_or_replace_group (dest_text element_id snippet : List Char) :
    Except AnnotationError (List Char × Bool) :=
  let prepared := ensure_trailing_newline snippet
  match searchPat (matchGroupAt (idToken element_id)) dest_text with
  | some (st, len) =>
    let new_text := dest_text.take st ++ prepared ++ dest_text.drop (st + len)
    .ok (new_text, !(new_text == dest_text))
  | none =>
    match findSub dest_text GROUP_MARKER with
    | some idx =>
      .ok (dest_text.take idx ++ newlineInsertion dest_text idx prepared ++
             dest_text.drop idx, true)
    | none =>
      match findSub dest_text SVG_CLOSE_MARKER with
      | some idx =>
        .ok (dest_text.take idx ++ newlineInsertion dest_text idx prepared ++
               dest_text.drop idx, true)
      | none => .error .noInsertionPoint

/-! ### `copy_annotations` (the orchestrator, after the two file reads and
the source parse; the files themselves are modelled by their texts, the
parse by the abstract `Element` tree) -/

/-- The include/exclude filtering of the candidate list (`if include:` /
`if exclude:`, empty sequences and `None` being falsy). -/
def filtered_candidates (root : Element) (src_text : List Char)
    (include_ exclude_ : List (List Char)) : List CandidateGroup :=
  let cands := discover_candidate_groups root src_text
  let cands :=
    if include_ == [] then cands
    else cands.filter (fun cand => include_.contains cand.group_id)
  if exclude_ == [] then cands
  else cands.filter (fun cand => !(exclude_.contains cand.group_id))

/-- One candidate's reference loop: extend `(definition_snippets, ref_seen)`
with the referenced ids that can be extracted (a ref is marked seen only
when extraction succeeds, as in the source). -/
def defsForRefs (src_text : List Char)
    (st : List (Nat × List Char × List Char) × List (List Char))
    (refs : List (List Char)) :
    List (Nat × List Char × List Char) × List (List Char) :=
  refs.foldl
    (fun st2 ref =>
      if st2.2.contains ref then st2
      else
        match extract_single_tag_with_pos src_text ref with
        | some (snippet_def, ps) => (st2.1 ++ [(ps, ref, snippet_def)], st2.2 ++ [ref])
        | none => st2)
    st

/-- The candidate loop that builds `definition_snippets` and
`group_snippets` (both unsorted, in loop order). -/
def collectFragments (src_text : List Char) (cands : List CandidateGroup) :
    List (Nat × List Char × List Char) × List (Nat × List Char × List Char) :=
  let res := cands.foldl
    (fun st cand =>
      let grps := st.2.1 ++ [(cand.start, cand.group_id, cand.snippet)]
      let defs := defsForRefs src_text (st.1, st.2.2) (collect_referenced_ids cand.element)
      (defs.1, grps, defs.2))
    ([], [], [])
  (res.1, res.2.1)

/-- Stable insertion step for `list.sort(key=lambda item: item[0])`. -/
def insertByKey (x : Nat × List Char × List Char) :
    List (Nat × List Char × List Char) → List (Nat × List Char × List Char)
  | [] => [x]
  | y :: ys => if x.1 ≤ y.1 then x :: y :: ys else y :: insertByKey x ys

def sortByKey : List (Nat × List Char × List Char) → List (Nat × List Char × List Char)
  | [] => []
  | x :: xs => insertByKey x (sortByKey xs)

/-- The sorted `definition_snippets` of a run. -/
def definition_snippets (root : Element) (src_text : List Char)
    (include_ exclude_ : List (List Char)) : List (Nat × List Char × List Char) :=
  sortByKey (collectFragments src_text (filtered_candidates root src_text include_ exclude_)).1

/-- The sorted `group_snippets` of a run. -/
def group_snippets (root : Element) (src_text : List Char)
    (include_ exclude_ : List (List Char)) : List (Nat × List Char × List Char) :=
  sortByKey (collectFragments src_text (filtered_candidates root src_text include_ exclude_)).2

/-- The definition merge loop (`changed = changed or updated`). -/
def mergeDefs (text : List Char) (changed : Bool) :
    List (Nat × List Char × List Char) → Except AnnotationError (List Char × Bool)
  | [] => .ok (text, changed)
  | (_, def_id, snippet) :: rest =>
    match insert_or_replace_definition text def_id snippet with
    | .error e => .error e
    | .ok (t2, updated) => mergeDefs t2 (changed || updated) rest

/-- The group merge loop (collecting `copied_groups`). -/
def mergeGroups (text : List Char) (changed : Bool) (copied : List (List Char)) :
    List (Nat × List Char × List Char) →
    Except AnnotationError (List Char × Bool × List (List Char))
  | [] => .ok (text, changed, copied)
  | (_, gid, snippet) :: rest =>
    match insert_or_replace_group text gid snippet with
    | .error e => .error e
    | .ok (t2, updated) =>
      mergeGroups t2 (changed || updated) (if updated then copied ++ [gid] else copied) rest

/-- `copy_annotations` after reading and parsing: returns
`(copied_groups, new_text, changed)` or the propagated error. -/
def copy_annotations (root : Element) (src_text dest_text : List Char)
    (include_ exclude_ : List (List Char)) :
    Except AnnotationError (List (List Char) × List Char × Bool) :=
  let cands := filtered_candidates root src_text include_ exclude_
  if cands == [] then .error .noCandidates
  else
    match mergeDefs dest_text false (definition_snippets root src_text include_ exclude_) with
    | .error e => .error e
    | .ok (t1, ch1) =>
      match mergeGroups t1 ch1 [] (group_snippets root src_text include_ exclude_) with
      | .error e => .error e
      | .ok (t2, ch2, copied) => .ok (copied, t2, ch2)

/-- The whole call including the final conditional write
(`if changed and not dry_run: target_path.write_text(new_text)`): the
second component is the on-disk text of the target after the call. -/
def copy_annotations_run (root : Element) (src_text disk : List Char)
    (include_ exclude_ : List (List Char)) (dry_run : Bool) :
    Except AnnotationError (List (List Char)) × List Char :=
  match copy_annotations root src_text disk include_ exclude_ with
  | .ok (copied, new_text, changed) =>
    (.ok copied, if changed && !dry_run then new_text else disk)
  | .error e => (.error e, disk)

/-! ### `parse_expression` -/

/-- Python `str.isspace` on the ASCII whitespace that `str.strip()` removes. -/
def isPyWhitespace (c : Char) : Bool :=
  c == ' ' || c == '\t' || c == '\n' || c == '\r' || c == '\x0b' || c == '\x0c'

/-- `value.strip()`. -/
def pstrip (s : List Char) : List Char :=
  ((s.dropWhile isPyWhitespace).reverse.dropWhile isPyWhitespace).reverse

/-- `expr.split(sep, 1)`: the part before the first `sep` and everything after. -/
def splitOnce (sep : Char) (s : List Char) : List Char × List Char :=
  let left := s.takeWhile (fun c => !(c == sep))
  (left, s.drop (left.length + 1))

/-- `parse_expression(value)`. -/
def parse_expression (value : List Char) :
    Except AnnotationError (List Char × List Char) :=
  let expr := pstrip value
  if expr.contains '>' then
    let lr := splitOnce '>' expr
    let source := pstrip lr.1
    let target := pstrip lr.2
    if source == [] || target == [] then .error .exprMissingSide else .ok (source, target)
  else if expr.contains '<' then
    let lr := splitOnce '<' expr
    let source := pstrip lr.2
    let target := pstrip lr.1
    if source == [] || target == [] then .error .exprMissingSide else .ok (source, target)
  else .error .exprNoDirection

/-! ### Concrete scenario documents

`c1*` is the spec's transfer scenario (a group `annotation_1` referencing
`marker-end="url(#arrow1)"`, the marker defined in the source's defs
section); the `Element` trees are the ones `ElementTree.fromstring`
produces for these texts. -/

def toL (s : String) : List Char := s.toList

def c1Marker : Element :=
  .mk (toL "marker") [(toL "id", toL "arrow1"), (toL "refX", toL "5")] []

def c1Defs : Element := .mk (toL "defs") [] [c1Marker]

def c1Path : Element :=
  .mk (toL "path") [(toL "d", toL "M0 0"), (toL "marker-end", toL "url(#arrow1)")] []

def c1G : Element :=
  .mk (toL "g") [(toL "id", toL "annotation_1"), (toL "stroke", toL "red")] [c1Path]

def c1Root : Element := .mk (toL "svg") [] [c1Defs, c1G]

def c1Src : List Char :=
  toL "<svg>\n<defs>\n<marker id=\"arrow1\" refX=\"5\"/>\n</defs>\n<g id=\"annotation_1\" stroke=\"red\">\n<path d=\"M0 0\" marker-end=\"url(#arrow1)\"/>\n</g>\n</svg>\n"

def c1Dest : List Char := toL "<svg>\n<defs>\n</defs>\n<rect x=\"1\"/>\n</svg>\n"

def c1GroupSnippet : List Char :=
  toL "<g id=\"annotation_1\" stroke=\"red\">\n<path d=\"M0 0\" marker-end=\"url(#arrow1)\"/>\n</g>"

def c1Final : List Char :=
  toL "<svg>\n<defs>\n</defs>\n<rect x=\"1\"/>\n<g id=\"annotation_1\" stroke=\"red\">\n<path d=\"M0 0\" marker-end=\"url(#arrow1)\"/>\n</g>\n\n</svg>\n"

/-- A destination with neither an existing group, nor the
`"\n </g>\n <defs>"` overlay slot, nor a `"\n</svg>"` closing marker. -/
def c10Dest : List Char := toL "<html>\n</html>\n"

/-! ### `findSub` against `List.IsInfix` -/

instance {ε α : Type} [DecidableEq ε] [DecidableEq α] : DecidableEq (Except ε α)
  | .ok a, .ok b =>
    if h : a = b then isTrue (by rw [h]) else isFalse (fun hh => by cases hh; exact h rfl)
  | .ok _, .error _ => isFalse (fun hh => by cases hh)
  | .error _, .ok _ => isFalse (fun hh => by cases hh)
  | .error e, .error f =>
    if h : e = f then isTrue (by rw [h]) else isFalse (fun hh => by cases hh; exact h rfl)

lemma findSub_isSome_iff (s sub : List Char) : (findSub s sub).isSome ↔ sub.IsInfix s := by
  induction s with
  | nil =>
    rw [findSub]
    by_cases h : sub.isPrefixOf ([] : List Char)
    · have hsub : sub = [] := List.prefix_nil.mp (List.isPrefixOf_iff_prefix.mp h)
      subst hsub
      simp [h]
    · have hne : sub ≠ [] := by
        intro hs
        subst hs
        exact h rfl
      simp [h, List.infix_nil, hne]
  | cons c rest ih =>
    rw [findSub]
    by_cases h : sub.isPrefixOf (c :: rest)
    · simp only [h, if_true, Option.isSome_some, true_iff]
      exact (List.isPrefixOf_iff_prefix.mp h).isInfix
    · simp only [h, Bool.false_eq_true, if_false]
      cases hf : findSub rest sub with
      | some i =>
        have hinf : sub <:+: rest := ih.mp (by rw [hf]; rfl)
        simp only [Option.map_some', Option.isSome_some, true_iff]
        exact hinf.trans (List.suffix_cons c rest).isInfix
      | none =>
        simp only [Option.map_none', Option.isSome_none, Bool.false_eq_true, false_iff]
        intro hinf
        rcases List.infix_cons_iff.mp hinf with hp | hi2
        · exact absurd (List.isPrefixOf_iff_prefix.mpr hp) h
        · have hs := ih.mpr hi2
          rw [hf] at hs
          cases hs

lemma findSub_none_iff (s sub : List Char) : findSub s sub = none ↔ ¬ sub.IsInfix s := by
  rw [← findSub_isSome_iff, Option.isSome_iff_ne_none]
  tauto

/-! ### C1 -/

/-- C1: on the spec's scenario (source group `annotation_1` with a
`marker-end="url(#arrow1)"` reference, `arrow1` a self-closing marker in the
source defs; target containing neither), the non-dry-run transfer returns
exactly `["annotation_1"]` and inserts the group fragment — but, contrary to
the claim, no definition fragment for `arrow1` is inserted: the single-tag
extractor's raw-string pattern (`[\\w:-]` and `</\\1>` denote literal
backslash sequences) cannot match the `<marker .../>` tag, so the
definition list stays empty and no tag with `id="arrow1"` appears anywhere
in the written target. -/
theorem c1_arrow_definition_dropped :
    copy_annotations_run c1Root c1Src c1Dest [] [] false =
      (.ok [toL "annotation_1"], c1Final) ∧
    List.IsInfix c1GroupSnippet c1Final ∧
    extract_single_tag_with_pos c1Src (toL "arrow1") = none ∧
    ¬ List.IsInfix (idToken (toL "arrow1")) c1Final := by
  refine ⟨by decide, by decide, by decide, ?_⟩
  rw [← findSub_none_iff]
  decide

/-! ### C7 -/

/-- C7: with `dry_run = True` the on-disk target text is never changed,
whatever the computed change set, and the returned list of group ids is the
same one a non-dry run would return. -/
theorem c7_dry_run_purity (root : Element) (src_text disk : List Char)
    (include_ exclude_ : List (List Char)) :
    (copy_annotations_run root src_text disk include_ exclude_ true).2 = disk ∧
    (copy_annotations_run root src_text disk include_ exclude_ true).1 =
      (copy_annotations_run root src_text disk include_ exclude_ false).1 := by
  unfold copy_annotations_run
  cases copy_annotations root src_text disk include_ exclude_ with
  | ok v => simp
  | error e => simp

/-! ### C10 -/

/-- C10: if `copy_annotations` raises after the reads, the target's text is
left unchanged — the run result carries the original disk text — and,
conversely, the disk text changes only when every definition and group
fragment merged without error (an `.ok` outcome with `changed = true`) and
the run was not a dry run. -/
theorem c10_no_write_on_error (root : Element) (src_text disk : List Char)
    (include_ exclude_ : List (List Char)) (dry_run : Bool) :
    (∀ e, copy_annotations root src_text disk include_ exclude_ = .error e →
      copy_annotations_run root src_text disk include_ exclude_ dry_run = (.error e, disk)) ∧
    ((copy_annotations_run root src_text disk include_ exclude_ dry_run).2 ≠ disk →
      ∃ copied new_text,
        copy_annotations root src_text disk include_ exclude_ = .ok (copied, new_text, true) ∧
        dry_run = false ∧
        (copy_annotations_run root src_text disk include_ exclude_ dry_run).2 = new_text) := by
  unfold copy_annotations_run
  cases hres : copy_annotations root src_text disk include_ exclude_ with
  | ok v =>
    obtain ⟨copied, new_text, changed⟩ := v
    constructor
    · intro e he
      simp at he
    · intro hne
      by_cases hch : (changed && !dry_run) = true
      · obtain ⟨h1, h2⟩ := Bool.and_eq_true_iff.mp hch
        exact ⟨copied, new_text, by rw [h1], by simpa using h2, by simp [hch]⟩
      · simp [hch] at hne
  | error e =>
    constructor
    · intro e2 he2
      have : e = e2 := by simpa using he2
      simp [this]
    · intro hne
      simp at hne

/-- C10 witness: a concrete transfer whose destination has no group match,
no overlay slot and no closing root marker; the merge raises the
"no insertion point" error and the disk text is untouched. -/
theorem c10_no_write_on_error_witness :
    copy_annotations_run c1Root c1Src c10Dest [] [] false =
      (.error .noInsertionPoint, c10Dest) :=
  (c10_no_write_on_error c1Root c1Src c10Dest [] [] false).1 .noInsertionPoint (by decide)

/-! ### C6 -/

/-- C6: `copy_annotations` fails with the "no candidates" error on an empty
filtered set; in particular `include=[x]` composed with `exclude=[x]` always
empties the candidate list (the include filter keeps only ids in `[x]`, the
exclude filter then removes them), whatever the source document. -/
theorem c6_filter_composition (root : Element) (src_text dest_text : List Char)
    (x : List Char) (include_ exclude_ : List (List Char)) :
    copy_annotations root src_text dest_text [x] [x] = .error .noCandidates ∧
    (filtered_candidates root src_text include_ exclude_ = [] →
      copy_annotations root src_text dest_text include_ exclude_ = .error .noCandidates) := by
  constructor
  · have hempty : filtered_candidates root src_text [x] [x] = [] := by
      unfold filtered_candidates
      have h1 : (([x] : List (List Char)) == []) = false := rfl
      simp only [h1, Bool.false_eq_true, if_false, List.filter_filter]
      apply List.filter_eq_nil_iff.mpr
      intro a _
      simp
    unfold copy_annotations
    rw [hempty]
    rfl
  · intro hempty
    unfold copy_annotations
    rw [hempty]
    rfl

/-- C6 witness: a concrete run of the include-empties-everything branch. -/
theorem c6_filter_composition_witness :
    copy_annotations c1Root c1Src c1Dest [toL "zzz"] [] = .error .noCandidates :=
  (c6_filter_composition c1Root c1Src c1Dest (toL "zzz") [toL "zzz"] []).2 (by decide)

/-! ### C2 -/

/-- Source for the C2 counterexample: the single overlay group contains a
nested `<g>` child, so the non-greedy replacement pattern `.*?</g>` stops
at the inner close tag on re-application. -/
def c2Inner : Element := .mk (toL "g") [(toL "fill", toL "blue")] []

def c2G : Element :=
  .mk (toL "g") [(toL "id", toL "anno"), (toL "stroke", toL "red")] [c2Inner]

def c2Root : Element := .mk (toL "svg") [] [c2G]

def c2Src : List Char :=
  toL "<svg>\n<g id=\"anno\" stroke=\"red\"><g fill=\"blue\">x</g>y</g>\n</svg>\n"

def c2Dest : List Char := toL "<svg>\n<rect x=\"1\"/>\n</svg>\n"

/-- Target text after the first run on the nested-group source. -/
def c2T1 : List Char :=
  toL "<svg>\n<rect x=\"1\"/>\n<g id=\"anno\" stroke=\"red\"><g fill=\"blue\">x</g>y</g>\n\n</svg>\n"

/-- Target text after the second run: the replacement matched only up to the
inner `</g>`, so the tail `y</g>` is duplicated. -/
def c2T2 : List Char :=
  toL "<svg>\n<rect x=\"1\"/>\n<g id=\"anno\" stroke=\"red\"><g fill=\"blue\">x</g>y</g>\ny</g>\n\n</svg>\n"

/-- C2 counterexample: running the transfer twice in succession on this
source/target pair returns `["anno"]` (not `[]`) on the second application,
and the target text after the second run differs from the text after the
first run — the claimed unconditional idempotence is false. -/
theorem c2_second_run_changes :
    copy_annotations_run c2Root c2Src c2Dest [] [] false = (.ok [toL "anno"], c2T1) ∧
    copy_annotations_run c2Root c2Src c2T1 [] [] false = (.ok [toL "anno"], c2T2) ∧
    (.ok [toL "anno"] : Except AnnotationError (List (List Char))) ≠ .ok [] ∧
    c2T2 ≠ c2T1 := by
  refine ⟨by decide, by decide, by decide, by decide⟩

lemma take_slice_drop (l : List Char) (st len : Nat) :
    l.take st ++ ((l.drop st).take len ++ l.drop (st + len)) = l := by
  have h1 : l.drop (st + len) = (l.drop st).drop len := by
    rw [List.drop_drop, Nat.add_comm]
  rw [h1, List.take_append_drop, List.take_append_drop]

lemma ensure_trailing_newline_ne_nil (s : List Char) : ensure_trailing_newline s ≠ [] := by
  unfold ensure_trailing_newline
  by_cases h : (s.getLast? == some '\n') = true
  · simp only [h, if_true]
    intro hs
    subst hs
    simp at h
  · simp [h]

lemma newlineInsertion_ne_nil (dest : List Char) (idx : Nat) (p : List Char) (hp : p ≠ []) :
    newlineInsertion dest idx p ≠ [] := by
  unfold newlineInsertion
  split
  · simp
  · exact hp

lemma insert_result_ne (dest ins : List Char) (idx : Nat) (h : ins ≠ []) :
    dest.take idx ++ (ins ++ dest.drop idx) ≠ dest := by
  intro he
  have hlen := congrArg List.length he
  have h2 : (dest.take idx).length + (dest.drop idx).length = dest.length := by
    rw [← List.length_append, List.take_append_drop]
  have h3 : 0 < ins.length := List.length_pos.mpr h
  simp only [List.length_append] at hlen
  omega

lemma insert_or_replace_group_changed_iff (dest element_id snippet t : List Char) (ch : Bool)
    (h : insert_or_replace_group dest element_id snippet = .ok (t, ch)) :
    ch = false ↔ t = dest := by
  unfold insert_or_replace_group at h
  cases hs : searchPat (matchGroupAt (idToken element_id)) dest with
  | some pr =>
    obtain ⟨st, len⟩ := pr
    rw [hs] at h
    simp only [Except.ok.injEq, Prod.mk.injEq] at h
    obtain ⟨ht, hch⟩ := h
    subst ht
    subst hch
    simp [Bool.not_eq_false, beq_iff_eq]
  | none =>
    rw [hs] at h
    cases hm1 : findSub dest GROUP_MARKER with
    | some idx =>
      rw [hm1] at h
      simp only [Except.ok.injEq, Prod.mk.injEq] at h
      obtain ⟨ht, hch⟩ := h
      subst ht
      subst hch
      have hne := insert_result_ne dest
        (newlineInsertion dest idx (ensure_trailing_newline snippet)) idx
        (newlineInsertion_ne_nil _ _ _ (ensure_trailing_newline_ne_nil snippet))
      simp [hne]
    | none =>
      rw [hm1] at h
      cases hm2 : findSub dest SVG_CLOSE_MARKER with
      | some idx =>
        rw [hm2] at h
        simp only [Except.ok.injEq, Prod.mk.injEq] at h
        obtain ⟨ht, hch⟩ := h
        subst ht
        subst hch
        have hne := insert_result_ne dest
          (newlineInsertion dest idx (ensure_trailing_newline snippet)) idx
          (newlineInsertion_ne_nil _ _ _ (ensure_trailing_newline_ne_nil snippet))
        simp [hne]
      | none =>
        rw [hm2] at h
        cases h

lemma insert_or_replace_definition_changed_iff (dest element_id snippet t : List Char)
    (ch : Bool)
    (h : insert_or_replace_definition dest element_id snippet = .ok (t, ch)) :
    ch = false ↔ t = dest := by
  unfold insert_or_replace_definition at h
  cases hs : searchPat (matchDefAt (idToken element_id)) dest with
  | some pr =>
    obtain ⟨st, len⟩ := pr
    rw [hs] at h
    simp only [Except.ok.injEq, Prod.mk.injEq] at h
    obtain ⟨ht, hch⟩ := h
    subst ht
    subst hch
    simp [Bool.not_eq_false, beq_iff_eq]
  | none =>
    rw [hs] at h
    cases hm1 : findSub dest DEFS_CLOSE with
    | some idx =>
      rw [hm1] at h
      simp only [Except.ok.injEq, Prod.mk.injEq] at h
      obtain ⟨ht, hch⟩ := h
      subst ht
      subst hch
      have hne := insert_result_ne dest
        (newlineInsertion dest idx (ensure_trailing_newline snippet)) idx
        (newlineInsertion_ne_nil _ _ _ (ensure_trailing_newline_ne_nil snippet))
      simp [hne]
    | none =>
      rw [hm1] at h
      cases h

lemma insert_or_replace_definition_fixed (dest element_id snippet : List Char) (st len : Nat)
    (h : searchPat (matchDefAt (idToken element_id)) dest = some (st, len))
    (hslice : (dest.drop st).take len = ensure_trailing_newline snippet) :
    insert_or_replace_definition dest element_id snippet = .ok (dest, false) := by
  unfold insert_or_replace_definition
  rw [h]
  have heq : dest.take st ++ ensure_trailing_newline snippet ++ dest.drop (st + len) = dest := by
    rw [← hslice, List.append_assoc]
    exact take_slice_drop dest st len
  simp [heq]

lemma insert_or_replace_group_fixed (dest element_id snippet : List Char) (st len : Nat)
    (h : searchPat (matchGroupAt (idToken element_id)) dest = some (st, len))
    (hslice : (dest.drop st).take len = ensure_trailing_newline snippet) :
    insert_or_replace_group dest element_id snippet = .ok (dest, false) := by
  unfold insert_or_replace_group
  rw [h]
  have heq : dest.take st ++ ensure_trailing_newline snippet ++ dest.drop (st + len) = dest := by
    rw [← hslice, List.append_assoc]
    exact take_slice_drop dest st len
  simp [heq]

lemma mergeDefs_noop (T : List Char) (ch : Bool) (frags : List (Nat × List Char × List Char))
    (h : ∀ f ∈ frags, insert_or_replace_definition T f.2.1 f.2.2 = .ok (T, false)) :
    mergeDefs T ch frags = .ok (T, ch) := by
  induction frags generalizing ch with
  | nil => rfl
  | cons f rest ih =>
    obtain ⟨p, def_id, snippet⟩ := f
    rw [mergeDefs]
    have hf := h (p, def_id, snippet) (by simp)
    simp only at hf
    rw [hf]
    simpa using ih ch (fun g hg => h g (by simp [hg]))

lemma mergeGroups_noop (T : List Char) (ch : Bool) (copied : List (List Char))
    (frags : List (Nat × List Char × List Char))
    (h : ∀ f ∈ frags, insert_or_replace_group T f.2.1 f.2.2 = .ok (T, false)) :
    mergeGroups T ch copied frags = .ok (T, ch, copied) := by
  induction frags generalizing ch copied with
  | nil => rfl
  | cons f rest ih =>
    obtain ⟨p, gid, snippet⟩ := f
    rw [mergeGroups]
    have hf := h (p, gid, snippet) (by simp)
    simp only at hf
    rw [hf]
    simpa using ih ch copied (fun g hg => h g (by simp [hg]))

/-- C2 (amended): per fragment, `insert_or_replace` reports
`changed = false` exactly when the output text equals the input text (so
re-applying an identical fragment that matches exactly as it stands yields
no change); and a second `copy_annotations` run returns `[]` with the
target byte-identical *provided* each fragment's replacement match in the
once-merged text spans exactly the previously merged fragment.  The
proviso is forced by the counterexample: for a fragment containing a
nested group the non-greedy `.*?</g>` replacement match ends at the first
inner close tag instead of the whole fragment, and idempotence fails. -/
theorem c2_idempotence_amended :
    (∀ dest element_id snippet t ch,
        insert_or_replace_group dest element_id snippet = .ok (t, ch) →
        (ch = false ↔ t = dest)) ∧
    (∀ dest element_id snippet t ch,
        insert_or_replace_definition dest element_id snippet = .ok (t, ch) →
        (ch = false ↔ t = dest)) ∧
    (∀ (root : Element) (src_text dest_text T1 : List Char)
        (include_ exclude_ : List (List Char)) (copied1 : List (List Char))
        (ch1 : Bool) (dry : Bool),
      copy_annotations root src_text dest_text include_ exclude_ = .ok (copied1, T1, ch1) →
      (∀ f ∈ definition_snippets root src_text include_ exclude_, ∃ st len,
          searchPat (matchDefAt (idToken f.2.1)) T1 = some (st, len) ∧
          (T1.drop st).take len = ensure_trailing_newline f.2.2) →
      (∀ f ∈ group_snippets root src_text include_ exclude_, ∃ st len,
          searchPat (matchGroupAt (idToken f.2.1)) T1 = some (st, len) ∧
          (T1.drop st).take len = ensure_trailing_newline f.2.2) →
      copy_annotations root src_text T1 include_ exclude_ = .ok ([], T1, false) ∧
      copy_annotations_run root src_text T1 include_ exclude_ dry = (.ok [], T1)) := by
  refine ⟨insert_or_replace_group_changed_iff, insert_or_replace_definition_changed_iff, ?_⟩
  intro root src_text dest_text T1 include_ exclude_ copied1 ch1 dry h1 hdefs hgrps
  have hcands : (filtered_candidates root src_text include_ exclude_ == []) = false := by
    by_cases hc : (filtered_candidates root src_text include_ exclude_ == []) = true
    · exfalso
      unfold copy_annotations at h1
      rw [if_pos hc] at h1
      cases h1
    · simpa using hc
  have hdmerge : mergeDefs T1 false (definition_snippets root src_text include_ exclude_) =
      .ok (T1, false) :=
    mergeDefs_noop _ _ _ (fun f hf => by
      obtain ⟨st, len, hsp, hsl⟩ := hdefs f hf
      exact insert_or_replace_definition_fixed _ _ _ st len hsp hsl)
  have hgmerge : mergeGroups T1 false []
      (group_snippets root src_text include_ exclude_) = .ok (T1, false, []) :=
    mergeGroups_noop _ _ _ _ (fun f hf => by
      obtain ⟨st, len, hsp, hsl⟩ := hgrps f hf
      exact insert_or_replace_group_fixed _ _ _ st len hsp hsl)
  have hmain : copy_annotations root src_text T1 include_ exclude_ = .ok ([], T1, false) := by
    unfold copy_annotations
    rw [if_neg (by simp [hcands])]
    simp only [hdmerge, hgmerge]
  refine ⟨hmain, ?_⟩
  unfold copy_annotations_run
  rw [hmain]
  simp

/-- C2 witness scenario: a source whose only overlay group has no nested
groups; the first run inserts it and the second run's replacement match
spans exactly the inserted fragment. -/
def c2wG : Element := .mk (toL "g") [(toL "id", toL "note"), (toL "stroke", toL "r")] []

def c2wRoot : Element := .mk (toL "svg") [] [c2wG]

def c2wSrc : List Char := toL "<svg>\n<g id=\"note\" stroke=\"r\">x</g>\n</svg>\n"

def c2wDest : List Char := toL "<svg>\n<rect x=\"1\"/>\n</svg>\n"

def c2wT1 : List Char :=
  toL "<svg>\n<rect x=\"1\"/>\n<g id=\"note\" stroke=\"r\">x</g>\n\n</svg>\n"

/-- C2 witness: the amended idempotence theorem applied to the concrete
non-nested scenario. -/
theorem c2_idempotence_amended_witness :
    copy_annotations c2wRoot c2wSrc c2wT1 [] [] = .ok ([], c2wT1, false) ∧
    copy_annotations_run c2wRoot c2wSrc c2wT1 [] [] false = (.ok [], c2wT1) :=
  c2_idempotence_amended.2.2 c2wRoot c2wSrc c2wDest c2wT1 [] [] [toL "note"] true false
    (by decide)
    (fun f hf => by
      rw [show definition_snippets c2wRoot c2wSrc [] [] = [] from by decide] at hf
      cases hf)
    (fun f hf => by
      rw [show group_snippets c2wRoot c2wSrc [] [] =
            [(6, toL "note", toL "<g id=\"note\" stroke=\"r\">x</g>")] from by decide] at hf
      simp only [List.mem_singleton] at hf
      subst hf
      exact ⟨20, 30, by decide, by decide⟩)

/-! ### C8 -/

lemma findSub_some_isInfix (s sub : List Char) (i : Nat) (h : findSub s sub = some i) :
    sub.IsInfix s :=
  (findSub_isSome_iff s sub).mp (by rw [h]; rfl)

/-- C8: when the group fragment's identifier has no existing replacement
match in the destination, the merge inserts the prepared fragment at the
first occurrence of the `"\n </g>\n <defs>"` overlay marker; failing that,
at the first occurrence of the `"\n</svg>"` closing-root marker; and it
raises an error — necessarily the "no insertion point" one — exactly when
neither marker occurs in the destination text. -/
theorem c8_group_insertion_slots (dest element_id snippet : List Char)
    (hnomatch : searchPat (matchGroupAt (idToken element_id)) dest = none) :
    (insert_or_replace_group dest element_id snippet = .error .noInsertionPoint ↔
      ¬ List.IsInfix GROUP_MARKER dest ∧ ¬ List.IsInfix SVG_CLOSE_MARKER dest) ∧
    (∀ e, insert_or_replace_group dest element_id snippet = .error e →
      e = .noInsertionPoint) ∧
    (∀ idx, findSub dest GROUP_MARKER = some idx →
      insert_or_replace_group dest element_id snippet =
        .ok (dest.take idx ++ newlineInsertion dest idx (ensure_trailing_newline snippet) ++
              dest.drop idx, true)) ∧
    (findSub dest GROUP_MARKER = none →
      ∀ idx, findSub dest SVG_CLOSE_MARKER = some idx →
        insert_or_replace_group dest element_id snippet =
          .ok (dest.take idx ++ newlineInsertion dest idx (ensure_trailing_newline snippet) ++
                dest.drop idx, true)) := by
  cases hm1 : findSub dest GROUP_MARKER with
  | some idx =>
    have hres : insert_or_replace_group dest element_id snippet =
        .ok (dest.take idx ++ newlineInsertion dest idx (ensure_trailing_newline snippet) ++
              dest.drop idx, true) := by
      unfold insert_or_replace_group
      rw [hnomatch, hm1]
    have hinf : GROUP_MARKER.IsInfix dest := findSub_some_isInfix _ _ _ hm1
    refine ⟨?_, ?_, ?_, ?_⟩
    · constructor
      · intro herr
        rw [hres] at herr
        cases herr
      · intro hng
        exact absurd hinf hng.1
    · intro e he
      rw [hres] at he
      cases he
    · intro idx2 h2
      injection h2 with h2
      subst h2
      exact hres
    · intro hnone
      cases hnone
  | none =>
    cases hm2 : findSub dest SVG_CLOSE_MARKER with
    | some idx =>
      have hres : insert_or_replace_group dest element_id snippet =
          .ok (dest.take idx ++ newlineInsertion dest idx (ensure_trailing_newline snippet) ++
                dest.drop idx, true) := by
        unfold insert_or_replace_group
        rw [hnomatch, hm1, hm2]
      have hinf : SVG_CLOSE_MARKER.IsInfix dest := findSub_some_isInfix _ _ _ hm2
      refine ⟨?_, ?_, ?_, ?_⟩
      · constructor
        · intro herr
          rw [hres] at herr
          cases herr
        · intro hng
          exact absurd hinf hng.2
      · intro e he
        rw [hres] at he
        cases he
      · intro idx2 h2
        cases h2
      · intro _ idx2 h2
        injection h2 with h2
        subst h2
        exact hres
    | none =>
      have hres : insert_or_replace_group dest element_id snippet =
          .error .noInsertionPoint := by
        unfold insert_or_replace_group
        rw [hnomatch, hm1, hm2]
      refine ⟨?_, ?_, ?_, ?_⟩
      · exact iff_of_true hres
          ⟨(findSub_none_iff dest GROUP_MARKER).mp hm1,
           (findSub_none_iff dest SVG_CLOSE_MARKER).mp hm2⟩
      · intro e he
        rw [hres] at he
        injection he with he
        exact he.symm
      · intro idx2 h2
        cases h2
      · intro _ idx2 h2
        cases h2

/-- Destination for the C8 witness: no overlay slot, but a closing-root
marker at offset 7. -/
def c8Dest : List Char := toL "<rect/>\n</svg>"

/-- C8 witness: inserting a fresh group before the `"\n</svg>"` fallback
marker of a destination without the preferred overlay slot. -/
theorem c8_group_insertion_slots_witness :
    insert_or_replace_group c8Dest (toL "note") (toL "<g id=\"note\"></g>") =
      .ok (c8Dest.take 7 ++
            newlineInsertion c8Dest 7 (ensure_trailing_newline (toL "<g id=\"note\"></g>")) ++
            c8Dest.drop 7, true) :=
  (c8_group_insertion_slots c8Dest (toL "note") (toL "<g id=\"note\"></g>")
    (by decide)).2.2.2 (by decide) 7 (by decide)

/-! ### C9 -/

/-- C9: `parse_expression` strips the input; with a `>` present the text
left of the first `>` (stripped) is the source and the right side the
target; with `<` (and no `>`) the sides swap roles; and it fails exactly
when neither separator occurs in the stripped expression or one of the
resulting sides is empty after stripping. -/
theorem c9_parse_expression_spec (value : List Char) :
    ((pstrip value).contains '>' = true →
      parse_expression value =
        (if pstrip (splitOnce '>' (pstrip value)).1 = [] ∨
            pstrip (splitOnce '>' (pstrip value)).2 = []
         then .error .exprMissingSide
         else .ok (pstrip (splitOnce '>' (pstrip value)).1,
                   pstrip (splitOnce '>' (pstrip value)).2))) ∧
    ((pstrip value).contains '>' = false → (pstrip value).contains '<' = true →
      parse_expression value =
        (if pstrip (splitOnce '<' (pstrip value)).2 = [] ∨
            pstrip (splitOnce '<' (pstrip value)).1 = []
         then .error .exprMissingSide
         else .ok (pstrip (splitOnce '<' (pstrip value)).2,
                   pstrip (splitOnce '<' (pstrip value)).1))) ∧
    ((pstrip value).contains '>' = false → (pstrip value).contains '<' = false →
      parse_expression value = .error .exprNoDirection) ∧
    ((∃ e, parse_expression value = .error e) ↔
      ((pstrip value).contains '>' = false ∧ (pstrip value).contains '<' = false) ∨
      ((pstrip value).contains '>' = true ∧
        (pstrip (splitOnce '>' (pstrip value)).1 = [] ∨
         pstrip (splitOnce '>' (pstrip value)).2 = [])) ∨
      ((pstrip value).contains '>' = false ∧ (pstrip value).contains '<' = true ∧
        (pstrip (splitOnce '<' (pstrip value)).2 = [] ∨
         pstrip (splitOnce '<' (pstrip value)).1 = []))) := by
  by_cases hgt : (pstrip value).contains '>' = true
  · have hred : parse_expression value =
        (if pstrip (splitOnce '>' (pstrip value)).1 = [] ∨
            pstrip (splitOnce '>' (pstrip value)).2 = []
         then .error .exprMissingSide
         else .ok (pstrip (splitOnce '>' (pstrip value)).1,
                   pstrip (splitOnce '>' (pstrip value)).2)) := by
      unfold parse_expression
      simp only [hgt, if_true, Bool.or_eq_true, beq_iff_eq]
    refine ⟨fun _ => hred, ?_, ?_, ?_⟩
    · intro hf
      rw [hf] at hgt
      cases hgt
    · intro hf
      rw [hf] at hgt
      cases hgt
    by_cases hside : pstrip (splitOnce '>' (pstrip value)).1 = [] ∨
        pstrip (splitOnce '>' (pstrip value)).2 = []
    · rw [hred, if_pos hside]
      exact iff_of_true ⟨.exprMissingSide, rfl⟩ (Or.inr (Or.inl ⟨hgt, hside⟩))
    · rw [hred, if_neg hside]
      constructor
      · intro ⟨e, he⟩
        cases he
      · intro hcase
        rcases hcase with ⟨h1, _⟩ | ⟨_, h2⟩ | ⟨h1, _⟩
        · rw [hgt] at h1
          cases h1
        · exact absurd h2 hside
        · rw [hgt] at h1
          cases h1
  · have hgt' : (pstrip value).contains '>' = false := by
      simpa using hgt
    by_cases hlt : (pstrip value).contains '<' = true
    · have hred : parse_expression value =
          (if pstrip (splitOnce '<' (pstrip value)).2 = [] ∨
              pstrip (splitOnce '<' (pstrip value)).1 = []
           then .error .exprMissingSide
           else .ok (pstrip (splitOnce '<' (pstrip value)).2,
                     pstrip (splitOnce '<' (pstrip value)).1)) := by
        unfold parse_expression
        simp only [hgt', Bool.false_eq_true, if_false, hlt, if_true, Bool.or_eq_true,
          beq_iff_eq]
      refine ⟨fun hg => absurd hg hgt, fun _ _ => hred, ?_, ?_⟩
      · intro _ hf
        rw [hf] at hlt
        cases hlt
      by_cases hside : pstrip (splitOnce '<' (pstrip value)).2 = [] ∨
          pstrip (splitOnce '<' (pstrip value)).1 = []
      · rw [hred, if_pos hside]
        exact iff_of_true ⟨.exprMissingSide, rfl⟩ (Or.inr (Or.inr ⟨hgt', hlt, hside⟩))
      · rw [hred, if_neg hside]
        constructor
        · intro ⟨e, he⟩
          cases he
        · intro hcase
          rcases hcase with ⟨_, h1⟩ | ⟨h1, _⟩ | ⟨_, _, h2⟩
          · rw [hlt] at h1
            cases h1
          · rw [hgt'] at h1
            cases h1
          · exact absurd h2 hside
    · have hlt' : (pstrip value).contains '<' = false := by
        simpa using hlt
      have hred : parse_expression value = .error .exprNoDirection := by
        unfold parse_expression
        simp only [hgt', hlt', Bool.false_eq_true, if_false]
      refine ⟨fun hg => absurd hg hgt, fun _ hl => absurd hl hlt,
        fun _ _ => hred, ?_⟩
      exact iff_of_true ⟨.exprNoDirection, hred⟩ (Or.inl ⟨hgt', hlt'⟩)

/-- C9 witness: the `>` direction on a concrete expression with whitespace
around both paths. -/
theorem c9_parse_expression_spec_witness :
    parse_expression (toL " a.svg > b.svg ") = .ok (toL "a.svg", toL "b.svg") := by
  have h := (c9_parse_expression_spec (toL " a.svg > b.svg ")).1 (by decide)
  rw [h]
  decide

/-! ### C4 and C5: structure of the discovery pipeline -/

lemma candidateOfNode_spec (svg_text : List Char) (pr : Element × List Element)
    (c : CandidateGroup) (h : candidateOfNode svg_text pr = some c) :
    c.element = pr.1 ∧
    pr.1.get idKey = some c.group_id ∧
    c.group_id ≠ [] ∧
    c.group_id ≠ figureId ∧
    looks_like_matplotlib_group c.group_id = false ∧
    pr.2.any badAncestorId = false ∧
    (pr.1.attrib.length == 1 && truthyGet pr.1 idKey) = false ∧
    extract_tag_block_with_pos svg_text c.group_id = some (c.snippet, c.start) ∧
    c.stop = c.start + c.snippet.length := by
  unfold candidateOfNode at h
  split at h
  · cases h
  cases hget : pr.1.get idKey with
  | none =>
    rw [hget] at h
    cases h
  | some gid =>
    rw [hget] at h
    simp only [] at h
    split at h
    · cases h
    rename_i hnil
    split at h
    · cases h
    rename_i hfig
    split at h
    · cases h
    rename_i hlooks
    split at h
    · cases h
    rename_i hanc
    split at h
    · cases h
    rename_i hattr
    cases hx : extract_tag_block_with_pos svg_text gid with
    | none =>
      rw [hx] at h
      cases h
    | some pr2 =>
      obtain ⟨snip, st⟩ := pr2
      rw [hx] at h
      simp only [] at h
      split at h
      · cases h
      injection h with h
      subst h
      refine ⟨?_, ?_, ?_, ?_, ?_, ?_, ?_, ?_, ?_⟩
      · exact rfl
      · exact rfl
      · intro hEq
        exact hnil (beq_iff_eq.mpr hEq)
      · intro hEq
        exact hfig (beq_iff_eq.mpr hEq)
      · simpa using hlooks
      · simpa using hanc
      · simpa using hattr
      · exact hx
      · exact rfl

lemma mem_pruneContained (x : CandidateGroup) :
    ∀ (rest kept : List CandidateGroup), x ∈ pruneContained kept rest →
      x ∈ kept ∨ x ∈ rest := by
  intro rest
  induction rest with
  | nil =>
    intro kept hx
    exact Or.inl hx
  | cons c cs ih =>
    intro kept hx
    rw [pruneContained] at hx
    split at hx
    · rcases ih kept hx with h1 | h2
      · exact Or.inl h1
      · exact Or.inr (List.mem_cons_of_mem c h2)
    · rcases ih (kept ++ [c]) hx with h1 | h2
      · rcases List.mem_append.mp h1 with h1a | h1b
        · exact Or.inl h1a
        · simp only [List.mem_singleton] at h1b
          exact Or.inr (h1b ▸ List.mem_cons_self c cs)
      · exact Or.inr (List.mem_cons_of_mem c h2)

lemma mem_insertByStart (c x : CandidateGroup) (l : List CandidateGroup) :
    x ∈ insertByStart c l ↔ x = c ∨ x ∈ l := by
  induction l with
  | nil => simp [insertByStart]
  | cons d ds ih =>
    rw [insertByStart]
    split
    · simp [or_comm, or_assoc, or_left_comm]
    · simp only [List.mem_cons, ih]
      tauto

lemma mem_sortCandidatesByStart (x : CandidateGroup) (l : List CandidateGroup) :
    x ∈ sortCandidatesByStart l ↔ x ∈ l := by
  induction l with
  | nil => simp [sortCandidatesByStart]
  | cons c cs ih =>
    rw [sortCandidatesByStart, mem_insertByStart, ih]
    simp

lemma sorted_insertByStart (c : CandidateGroup) (l : List CandidateGroup)
    (hl : l.Pairwise (fun a b => a.start ≤ b.start)) :
    (insertByStart c l).Pairwise (fun a b => a.start ≤ b.start) := by
  induction l with
  | nil => simp [insertByStart]
  | cons d ds ih =>
    rw [insertByStart]
    rw [List.pairwise_cons] at hl
    split
    · rename_i hle
      rw [List.pairwise_cons]
      constructor
      · intro b hb
        rcases List.mem_cons.mp hb with hb1 | hb2
        · exact hb1 ▸ hle
        · exact le_trans hle (hl.1 b hb2)
      · exact List.pairwise_cons.mpr hl
    · rename_i hgt
      rw [List.pairwise_cons]
      constructor
      · intro b hb
        rcases (mem_insertByStart c b ds).mp hb with hb1 | hb2
        · subst hb1
          omega
        · exact hl.1 b hb2
      · exact ih hl.2

lemma sorted_sortCandidatesByStart (l : List CandidateGroup) :
    (sortCandidatesByStart l).Pairwise (fun a b => a.start ≤ b.start) := by
  induction l with
  | nil => simp [sortCandidatesByStart]
  | cons c cs ih => exact sorted_insertByStart c _ ih

/-- Any two block extractions that begin at the same offset produce the
same snippet: the block end is determined by the depth scan from the
opening position alone, not by the identifier. -/
lemma extract_tag_block_at (svg_text idv sv : List Char) (p : Nat)
    (h : extract_tag_block_with_pos svg_text idv = some (sv, p)) :
    ∃ len, scanBlock (svg_text.drop p) 0 = some len ∧ sv = (svg_text.drop p).take len := by
  unfold extract_tag_block_with_pos at h
  split at h
  · cases h
  split at h
  · cases h
  split at h
  · cases h
  rename_i openStart len hscan
  injection h with h
  simp only [Prod.mk.injEq] at h
  obtain ⟨hsv, hop⟩ := h
  subst hop
  exact ⟨len, hscan, hsv.symm⟩

lemma extract_tag_block_snippet_det (svg_text id1 id2 s1 s2 : List Char) (p : Nat)
    (h1 : extract_tag_block_with_pos svg_text id1 = some (s1, p))
    (h2 : extract_tag_block_with_pos svg_text id2 = some (s2, p)) : s1 = s2 := by
  obtain ⟨len1, hscan1, hs1⟩ := extract_tag_block_at svg_text id1 s1 p h1
  obtain ⟨len2, hscan2, hs2⟩ := extract_tag_block_at svg_text id2 s2 p h2
  rw [hscan1] at hscan2
  injection hscan2 with hlen
  rw [hs1, hs2, hlen]

/-- The raw candidate list of a discovery run. -/
def rawCandidates (root : Element) (svg_text : List Char) : List CandidateGroup :=
  (iterWithAncestors [] root).filterMap (candidateOfNode svg_text)

lemma discover_eq_prune (root : Element) (svg_text : List Char) :
    discover_candidate_groups root svg_text =
      pruneContained [] (sortCandidatesByStart (rawCandidates root svg_text)) := rfl

/-- Same start offset forces the same end offset among raw candidates. -/
lemma rawCandidates_start_stop (root : Element) (svg_text : List Char)
    (a b : CandidateGroup) (ha : a ∈ rawCandidates root svg_text)
    (hb : b ∈ rawCandidates root svg_text) (hst : a.start = b.start) : a.stop = b.stop := by
  obtain ⟨pra, _, hca⟩ := List.mem_filterMap.mp ha
  obtain ⟨prb, _, hcb⟩ := List.mem_filterMap.mp hb
  have hsa := (candidateOfNode_spec svg_text pra a hca).2.2.2.2.2.2.2
  have hsb := (candidateOfNode_spec svg_text prb b hcb).2.2.2.2.2.2.2
  have hsnip : a.snippet = b.snippet :=
    extract_tag_block_snippet_det svg_text a.group_id b.group_id a.snippet b.snippet a.start
      hsa.1 (hst ▸ hsb.1)
  rw [hsa.2, hsb.2, hsnip, hst]

lemma pruneContained_spec :
    ∀ (rest kept : List CandidateGroup),
      kept.Pairwise (fun a b => a.start ≤ b.start ∧ ¬(a.start ≤ b.start ∧ b.stop ≤ a.stop) ∧
        ¬(b.start ≤ a.start ∧ a.stop ≤ b.stop)) →
      (∀ a ∈ kept, ∀ b ∈ rest, a.start ≤ b.start) →
      rest.Pairwise (fun a b => a.start ≤ b.start) →
      (∀ a b, (a ∈ kept ∨ a ∈ rest) → (b ∈ kept ∨ b ∈ rest) → a.start = b.start →
        a.stop = b.stop) →
      (pruneContained kept rest).Pairwise
        (fun a b => a.start ≤ b.start ∧ ¬(a.start ≤ b.start ∧ b.stop ≤ a.stop) ∧
          ¬(b.start ≤ a.start ∧ a.stop ≤ b.stop)) := by
  intro rest
  induction rest with
  | nil =>
    intro kept hkept _ _ _
    exact hkept
  | cons c cs ih =>
    intro kept hkept hkr hsorted hsame
    rw [pruneContained]
    rw [List.pairwise_cons] at hsorted
    split
    · exact ih kept hkept
        (fun a ha b hb => hkr a ha b (List.mem_cons_of_mem c hb)) hsorted.2
        (fun a b ha hb => hsame a b
          (ha.imp id (List.mem_cons_of_mem c)) (hb.imp id (List.mem_cons_of_mem c)))
    · rename_i hnotany
      have hnot : ∀ e ∈ kept, ¬(e.start ≤ c.start ∧ c.stop ≤ e.stop) := by
        intro e he hcon
        exact hnotany (List.any_eq_true.mpr ⟨e, he,
          by simp [hcon.1, hcon.2]⟩)
      apply ih (kept ++ [c])
      · rw [List.pairwise_append]
        refine ⟨hkept, by simp, ?_⟩
        intro a ha b hb
        simp only [List.mem_singleton] at hb
        rw [hb]
        have hle : a.start ≤ c.start := hkr a ha c (List.mem_cons_self c cs)
        have hne : ¬(a.start ≤ c.start ∧ c.stop ≤ a.stop) := hnot a ha
        have hstop : a.stop < c.stop := by
          by_contra hcon
          exact hne ⟨hle, by omega⟩
        refine ⟨hle, hne, ?_⟩
        intro ⟨hba, hab⟩
        have hEq : a.start = c.start := le_antisymm hle hba
        have := hsame a c (Or.inl ha) (Or.inr (List.mem_cons_self c cs)) hEq
        omega
      · intro a ha b hb
        rcases List.mem_append.mp ha with h1 | h2
        · exact hkr a h1 b (List.mem_cons_of_mem c hb)
        · simp only [List.mem_singleton] at h2
          subst h2
          exact hsorted.1 b hb
      · exact hsorted.2
      · intro a b ha hb
        apply hsame a b
        · rcases ha with h1 | h2
          · rcases List.mem_append.mp h1 with h1a | h1b
            · exact Or.inl h1a
            · simp only [List.mem_singleton] at h1b
              exact Or.inr (h1b ▸ List.mem_cons_self c cs)
          · exact Or.inr (List.mem_cons_of_mem c h2)
        · rcases hb with h1 | h2
          · rcases List.mem_append.mp h1 with h1a | h1b
            · exact Or.inl h1a
            · simp only [List.mem_singleton] at h1b
              exact Or.inr (h1b ▸ List.mem_cons_self c cs)
          · exact Or.inr (List.mem_cons_of_mem c h2)

/-- C4: the final candidate list is ordered by source start offset and no
entry's `[start, stop)` span is fully contained in another entry's span
(containment read as `start ≥ other.start ∧ stop ≤ other.stop`). -/
theorem c4_candidates_sorted_non_nested (root : Element) (svg_text : List Char) :
    (discover_candidate_groups root svg_text).Pairwise
      (fun a b => a.start ≤ b.start ∧ ¬(a.start ≤ b.start ∧ b.stop ≤ a.stop) ∧
        ¬(b.start ≤ a.start ∧ a.stop ≤ b.stop)) := by
  rw [discover_eq_prune]
  apply pruneContained_spec
  · exact List.Pairwise.nil
  · intro a ha
    cases ha
  · exact sorted_sortCandidatesByStart _
  · intro a b ha hb hst
    rcases ha with ha | ha
    · cases ha
    rcases hb with hb | hb
    · cases hb
    exact rawCandidates_start_stop root svg_text a b
      ((mem_sortCandidatesByStart a _).mp ha) ((mem_sortCandidatesByStart b _).mp hb) hst

/-- C5: no discovered candidate has the root container id `figure_1`, or an
id matching one of the generated-content prefixes case-insensitively, or an
ancestor whose id matches either condition, or an attribute dictionary
consisting of the id alone. -/
theorem c5_discovery_rejections (root : Element) (svg_text : List Char)
    (c : CandidateGroup) (h : c ∈ discover_candidate_groups root svg_text) :
    c.group_id ≠ figureId ∧
    looks_like_matplotlib_group c.group_id = false ∧
    (∃ anc, (c.element, anc) ∈ iterWithAncestors [] root ∧
      ∀ p ∈ anc, badAncestorId p = false) ∧
    ¬(c.element.attrib.length = 1 ∧ truthyGet c.element idKey = true) := by
  have hraw : c ∈ rawCandidates root svg_text := by
    rw [discover_eq_prune] at h
    rcases mem_pruneContained c _ [] h with h1 | h2
    · cases h1
    · exact (mem_sortCandidatesByStart c _).mp h2
  obtain ⟨pr, hpr, hc⟩ := List.mem_filterMap.mp hraw
  obtain ⟨helem, _, _, hfig, hlooks, hanc, hattr, _, _⟩ :=
    candidateOfNode_spec svg_text pr c hc
  refine ⟨hfig, hlooks, ⟨pr.2, ?_, ?_⟩, ?_⟩
  · rw [helem]
    simpa using hpr
  · intro p hp
    have h2 := List.any_eq_false.mp hanc p hp
    simpa using h2
  · intro hcon
    obtain ⟨hlen, htru⟩ := hcon
    rw [helem] at hlen htru
    have hT : (pr.1.attrib.length == 1 && truthyGet pr.1 idKey) = true := by
      simp [hlen, htru]
    rw [hattr] at hT
    cases hT

/-- The candidate the discovery produces on the C1 scenario source. -/
def c5Candidate : CandidateGroup :=
  ⟨toL "annotation_1", c1G, c1GroupSnippet, 52, 134⟩

/-- C5 witness: the rejection properties instantiated at the concrete
candidate discovered in the scenario source. -/
theorem c5_discovery_rejections_witness :
    c5Candidate.group_id ≠ figureId ∧
    looks_like_matplotlib_group c5Candidate.group_id = false ∧
    (∃ anc, (c5Candidate.element, anc) ∈ iterWithAncestors [] c1Root ∧
      ∀ p ∈ anc, badAncestorId p = false) ∧
    ¬(c5Candidate.element.attrib.length = 1 ∧ truthyGet c5Candidate.element idKey = true) :=
  c5_discovery_rejections c1Root c1Src c5Candidate (by decide)

/-! ### C3: balanced block extraction

Claim-side notions: an *open tag of the tracked kind* is an occurrence of
the token `<g` at a word boundary (`re.finditer(r"</?g\b")`), a *close
tag* an occurrence of `</g` at a word boundary.  Tokens always begin with
the single `<` they contain, so counting matching positions is the same as
counting the scanner's non-overlapping matches. -/

/-- An open token `<g\b` at the head of the list. -/
def isOpenTokAt (l : List Char) : Bool :=
  l.take 2 == ['<', 'g'] && !(headIsWord (l.drop 2))

/-- A close token `</g\b` at the head of the list. -/
def isCloseTokAt (l : List Char) : Bool :=
  l.take 3 == ['<', '/', 'g'] && !(headIsWord (l.drop 3))

/-- Number of open tokens of the tracked kind in the text. -/
def countOpen : List Char → Nat
  | [] => 0
  | c :: rest => (if isOpenTokAt (c :: rest) then 1 else 0) + countOpen rest

/-- Number of close tokens of the tracked kind in the text. -/
def countClose : List Char → Nat
  | [] => 0
  | c :: rest => (if isCloseTokAt (c :: rest) then 1 else 0) + countClose rest

def isXmlWs (c : Char) : Bool := c == ' ' || c == '\t' || c == '\n' || c == '\r'

/-- Only whitespace up to (and then) a `>`. -/
def wsThenGt : List Char → Bool
  | [] => false
  | c :: rest => if c == '>' then true else isXmlWs c && wsThenGt rest

/-- Well-formedness surrogate used for the amended balanced-extraction
statement: after every close token `</g` only whitespace may precede the
closing `>` (XML allows nothing else inside an end tag). -/
def closeTagsTight : List Char → Bool
  | [] => true
  | c :: rest => (!(isCloseTokAt (c :: rest)) || wsThenGt (rest.drop 2)) && closeTagsTight rest

lemma closeTagsTight_tail (c : Char) (l : List Char) (h : closeTagsTight (c :: l) = true) :
    closeTagsTight l = true := by
  rw [closeTagsTight] at h
  exact (Bool.and_eq_true_iff.mp h).2

lemma closeTagsTight_drop (n : Nat) :
    ∀ (s : List Char), closeTagsTight s = true → closeTagsTight (s.drop n) = true := by
  induction n with
  | zero =>
    intro s h
    simpa using h
  | succ m ih =>
    intro s h
    cases s with
    | nil => simpa using h
    | cons c rest =>
      rw [List.drop_succ_cons]
      exact ih rest (closeTagsTight_tail c rest h)

lemma isXmlWs_facts (c : Char) (h : isXmlWs c = true) :
    isWordChar c = false ∧ ¬(c = '>') ∧ ¬(c = '<') := by
  rw [isXmlWs] at h
  simp only [Bool.or_eq_true, beq_iff_eq] at h
  rcases h with ((h | h) | h) | h <;> subst h <;> exact ⟨by decide, by decide, by decide⟩

lemma headIsWord_take (l : List Char) (n : Nat) (hn : 1 ≤ n) :
    headIsWord (l.take n) = headIsWord l := by
  cases l with
  | nil => simp
  | cons c rest =>
    cases n with
    | zero => omega
    | succ m => rfl

lemma headIsWord_ws_append (w : List Char) (r : List Char)
    (hw : ∀ c ∈ w, isXmlWs c = true) (hr : headIsWord r = false) :
    headIsWord (w ++ r) = false := by
  cases w with
  | nil => simpa using hr
  | cons c w2 =>
    have := (isXmlWs_facts c (hw c (by simp))).1
    simpa [headIsWord] using this

lemma counts_no_lt (l : List Char) (h : ∀ c ∈ l, ¬(c = '<')) :
    countOpen l = 0 ∧ countClose l = 0 := by
  induction l with
  | nil => exact ⟨rfl, rfl⟩
  | cons c rest ih =>
    have hc : ¬(c = '<') := h c (by simp)
    have hops : isOpenTokAt (c :: rest) = false := by
      have h2 : ((c :: rest).take 2 == ['<', 'g']) = false := by
        rw [List.take_succ_cons, beq_eq_false_iff_ne]
        intro hEq
        injection hEq with h1 _
        exact hc h1
      rw [isOpenTokAt, h2, Bool.false_and]
    have hcls : isCloseTokAt (c :: rest) = false := by
      have h2 : ((c :: rest).take 3 == ['<', '/', 'g']) = false := by
        rw [List.take_succ_cons, beq_eq_false_iff_ne]
        intro hEq
        injection hEq with h1 _
        exact hc h1
      rw [isCloseTokAt, h2, Bool.false_and]
    have ihr := ih (fun x hx => h x (by simp [hx]))
    rw [countOpen, countClose]
    simp [hops, hcls, ihr.1, ihr.2]

lemma wsThenGt_decomp (l : List Char) (h : wsThenGt l = true) :
    ∃ w rest2, l = w ++ '>' :: rest2 ∧ ∀ c ∈ w, isXmlWs c = true := by
  induction l with
  | nil => cases h
  | cons c rest ih =>
    rw [wsThenGt] at h
    by_cases hc : (c == '>') = true
    · have := beq_iff_eq.mp hc
      subst this
      exact ⟨[], rest, rfl, by simp⟩
    · rw [if_neg (by simpa using hc)] at h
      obtain ⟨hw, hrest⟩ := Bool.and_eq_true_iff.mp h
      obtain ⟨w, rest2, heq, hws⟩ := ih hrest
      refine ⟨c :: w, rest2, by rw [heq]; rfl, ?_⟩
      intro x hx
      rcases List.mem_cons.mp hx with hx1 | hx2
      · exact hx1 ▸ hw
      · exact hws x hx2

lemma findSub_gt_prefix (pre post : List Char) (h : ∀ c ∈ pre, ¬(c = '>')) :
    findSub (pre ++ '>' :: post) ['>'] = some pre.length := by
  induction pre with
  | nil =>
    rw [List.nil_append, findSub.eq_def]
    simp [List.isPrefixOf]
  | cons c pre2 ih =>
    have hc : ¬(c = '>') := h c (by simp)
    have hpre : (['>'].isPrefixOf (c :: (pre2 ++ '>' :: post))) = false := by
      simp [List.isPrefixOf]
      exact fun hh => hc hh.symm
    rw [List.cons_append, findSub.eq_def, hpre]
    show (findSub (pre2 ++ '>' :: post) ['>']).map (fun i => i + 1) = some (pre2.length + 1)
    rw [ih (fun x hx => h x (by simp [hx]))]
    rfl

lemma cons_beq_cons (a b : Char) (l m : List Char) :
    ((a :: l) == (b :: m)) = (a == b && l == m) := rfl

lemma countOpen_cons (c : Char) (l : List Char) :
    countOpen (c :: l) = (if isOpenTokAt (c :: l) then 1 else 0) + countOpen l := rfl

lemma countClose_cons (c : Char) (l : List Char) :
    countClose (c :: l) = (if isCloseTokAt (c :: l) then 1 else 0) + countClose l := rfl

lemma toks_false_of_ne_lt (c : Char) (X : List Char) (hc : ¬(c = '<')) :
    isOpenTokAt (c :: X) = false ∧ isCloseTokAt (c :: X) = false := by
  constructor
  · have h2 : ((c :: X).take 2 == ['<', 'g']) = false := by
      rw [List.take_succ_cons, beq_eq_false_iff_ne]
      intro hEq
      injection hEq with h1 _
      exact hc h1
    rw [isOpenTokAt, h2, Bool.false_and]
  · have h2 : ((c :: X).take 3 == ['<', '/', 'g']) = false := by
      rw [List.take_succ_cons, beq_eq_false_iff_ne]
      intro hEq
      injection hEq with h1 _
      exact hc h1
    rw [isCloseTokAt, h2, Bool.false_and]

lemma isOpenTokAt_close_shape (X : List Char) : isOpenTokAt ('<' :: '/' :: X) = false := by
  rw [isOpenTokAt]
  have h2 : (('<' :: '/' :: X).take 2 == ['<', 'g']) = false := rfl
  rw [h2, Bool.false_and]

lemma isCloseTokAt_close_shape (X : List Char) :
    isCloseTokAt ('<' :: '/' :: 'g' :: X) = !(headIsWord X) := by
  rw [isCloseTokAt]
  have h2 : (('<' :: '/' :: 'g' :: X).take 3 == ['<', '/', 'g']) = true := by
    rw [List.take_succ_cons, List.take_succ_cons, List.take_succ_cons, List.take_zero]
    rfl
  rw [h2, Bool.true_and]
  rfl

lemma isOpenTokAt_open_shape (X : List Char) :
    isOpenTokAt ('<' :: 'g' :: X) = !(headIsWord X) := by
  rw [isOpenTokAt]
  have h2 : (('<' :: 'g' :: X).take 2 == ['<', 'g']) = true := by
    rw [List.take_succ_cons, List.take_succ_cons, List.take_zero]
    rfl
  rw [h2, Bool.true_and]
  rfl

lemma isCloseTokAt_open_shape (X : List Char) : isCloseTokAt ('<' :: 'g' :: X) = false := by
  rw [isCloseTokAt]
  have h2 : (('<' :: 'g' :: X).take 3 == ['<', '/', 'g']) = false := by
    rw [List.take_succ_cons, List.take_succ_cons, cons_beq_cons, cons_beq_cons]
    rfl
  rw [h2, Bool.false_and]

lemma take_append_units (w l2 : List Char) (i : Nat) :
    (w ++ l2).take (w.length + i) = w ++ l2.take i := by
  induction w with
  | nil => simp
  | cons c w2 ih =>
    rw [List.cons_append, List.length_cons,
      show w2.length + 1 + i = (w2.length + i) + 1 from by omega, List.take_succ_cons, ih]
    rfl

lemma no_token_inds (head : Char) (rest : List Char) (n : Nat) (hn : 1 ≤ n)
    (h1 : ∀ rest1, head = '<' → rest = '/' :: 'g' :: rest1 → False)
    (h2 : ∀ rest1, head = '<' → rest = 'g' :: rest1 → False) :
    isOpenTokAt (head :: rest.take n) = false ∧
    isCloseTokAt (head :: rest.take n) = false := by
  by_cases hh : head = '<'
  · subst hh
    constructor
    · rw [isOpenTokAt]
      have hfirst : ((('<' :: rest.take n).take 2) == ['<', 'g']) = false := by
        rw [List.take_succ_cons, cons_beq_cons]
        have hsecond : ((rest.take n).take 1 == ['g']) = false := by
          cases rest with
          | nil =>
            rw [List.take_nil]
            rfl
          | cons r0 rest2 =>
            obtain ⟨k, rfl⟩ : ∃ k, n = k + 1 := ⟨n - 1, by omega⟩
            have hr0 : ¬(r0 = 'g') := fun hg => h2 rest2 rfl (by rw [hg])
            rw [show ((r0 :: rest2).take (k + 1)).take 1 = [r0] from rfl,
              beq_eq_false_iff_ne]
            intro hEq
            injection hEq with hEq1 _
            exact hr0 hEq1
        rw [hsecond, Bool.and_false]
      rw [hfirst, Bool.false_and]
    · rw [isCloseTokAt]
      have hfirst : ((('<' :: rest.take n).take 3) == ['<', '/', 'g']) = false := by
        rw [List.take_succ_cons, cons_beq_cons]
        have hsecond : ((rest.take n).take 2 == ['/', 'g']) = false := by
          cases rest with
          | nil =>
            rw [List.take_nil]
            rfl
          | cons r0 rest2 =>
            obtain ⟨k, rfl⟩ : ∃ k, n = k + 1 := ⟨n - 1, by omega⟩
            by_cases hr0 : r0 = '/'
            · subst hr0
              rw [show (('/' :: rest2).take (k + 1)).take 2 =
                  '/' :: ((rest2.take k).take 1) from rfl, cons_beq_cons]
              have hthird : ((rest2.take k).take 1 == ['g']) = false := by
                cases rest2 with
                | nil =>
                  rw [List.take_nil]
                  rfl
                | cons r1 rest3 =>
                  cases k with
                  | zero => rfl
                  | succ k2 =>
                    have hr1 : ¬(r1 = 'g') := fun hg => h1 rest3 rfl (by rw [hg])
                    rw [show ((r1 :: rest3).take (k2 + 1)).take 1 = [r1] from rfl,
                      beq_eq_false_iff_ne]
                    intro hEq
                    injection hEq with hEq1 _
                    exact hr1 hEq1
              rw [hthird, Bool.and_false]
            · rw [show ((r0 :: rest2).take (k + 1)).take 2 =
                  r0 :: ((rest2.take k).take 1) from rfl, cons_beq_cons,
                beq_eq_false_iff_ne.mpr hr0, Bool.false_and]
        rw [hsecond, Bool.and_false]
      rw [hfirst, Bool.false_and]
  · exact toks_false_of_ne_lt head (rest.take n) hh

/-- Core invariant of the depth scan: on success (with the close-tag
tightness of well-formed markup) the returned block has at least 4
characters, its close-token count exceeds its open-token count by exactly
the entry depth, and it ends with a close tag `</g`, whitespace, `>`. -/
lemma scanBlock_spec (s : List Char) (d : Int) :
    closeTagsTight s = true → ∀ len, scanBlock s d = some len →
    4 ≤ len ∧
    ((countClose (s.take len) : Int) - countOpen (s.take len) = d) ∧
    ∃ A mid, s.take len = A ++ ('<' :: '/' :: 'g' :: (mid ++ ['>'])) ∧
      ∀ c ∈ mid, isXmlWs c = true := by
  induction s, d using scanBlock.induct with
  | case1 rest d hw ih =>
    intro htight len hscan
    rw [scanBlock, if_pos hw] at hscan
    cases hrec : scanBlock ('/' :: 'g' :: rest) d with
    | none =>
      rw [hrec] at hscan
      cases hscan
    | some n =>
      rw [hrec, Option.map_some'] at hscan
      injection hscan with hlen
      subst hlen
      obtain ⟨h4, hcnt, A2, mid, hdec, hws⟩ :=
        ih (closeTagsTight_tail _ _ htight) n hrec
      obtain ⟨m, rfl⟩ : ∃ m, n = m + 4 := ⟨n - 4, by omega⟩
      have htk : ('/' :: 'g' :: rest).take (m + 4) = '/' :: 'g' :: rest.take (m + 2) := rfl
      have htk2 : ('<' :: '/' :: 'g' :: rest).take (m + 4 + 1) =
          '<' :: '/' :: 'g' :: rest.take (m + 2) := rfl
      have hhw : headIsWord (rest.take (m + 2)) = true := by
        rw [headIsWord_take rest (m + 2) (by omega)]
        exact hw
      refine ⟨by omega, ?_, ?_⟩
      · have e1 : countClose ('<' :: '/' :: 'g' :: rest.take (m + 2)) =
            countClose ('/' :: 'g' :: rest.take (m + 2)) := by
          rw [countClose_cons, isCloseTokAt_close_shape, hhw]
          simp
        have e2 : countOpen ('<' :: '/' :: 'g' :: rest.take (m + 2)) =
            countOpen ('/' :: 'g' :: rest.take (m + 2)) := by
          rw [countOpen_cons, isOpenTokAt_close_shape]
          simp
        rw [htk2, e1, e2]
        rw [htk] at hcnt
        exact hcnt
      · rw [htk] at hdec
        exact ⟨'<' :: A2, mid, by rw [htk2, hdec]; rfl, hws⟩
  | case2 rest d hw hd =>
    intro htight len hscan
    rw [scanBlock, if_neg hw, if_pos hd] at hscan
    cases hfind : findGt ('<' :: '/' :: 'g' :: rest) with
    | none =>
      rw [hfind] at hscan
      cases hscan
    | some j =>
      rw [hfind, Option.map_some'] at hscan
      injection hscan with hlen
      subst hlen
      have hdd : d = 1 := by omega
      subst hdd
      have hwsg : wsThenGt rest = true := by
        rw [closeTagsTight] at htight
        obtain ⟨h1, _⟩ := Bool.and_eq_true_iff.mp htight
        have hct : isCloseTokAt ('<' :: '/' :: 'g' :: rest) = true := by
          rw [isCloseTokAt_close_shape]
          simp only [Bool.not_eq_true] at hw
          rw [hw]
          rfl
        rw [hct] at h1
        simpa using h1
      obtain ⟨w, r2, hrw, hws⟩ := wsThenGt_decomp rest hwsg
      subst hrw
      have hpre : ∀ c ∈ ('<' :: '/' :: 'g' :: w), ¬(c = '>') := by
        intro c hcmem
        simp only [List.mem_cons] at hcmem
        rcases hcmem with h | h | h | h
        · subst h; decide
        · subst h; decide
        · subst h; decide
        · exact (isXmlWs_facts c (hws c h)).2.1
      have hfg : findGt ('<' :: '/' :: 'g' :: (w ++ '>' :: r2)) = some (w.length + 3) := by
        have hx := findSub_gt_prefix ('<' :: '/' :: 'g' :: w) r2 hpre
        rw [show ('<' :: '/' :: 'g' :: w) ++ '>' :: r2 =
          '<' :: '/' :: 'g' :: (w ++ '>' :: r2) from rfl] at hx
        rw [show ('<' :: '/' :: 'g' :: w).length = w.length + 3 from by simp] at hx
        exact hx
      rw [hfg] at hfind
      injection hfind with hj
      subst hj
      have htk : ('<' :: '/' :: 'g' :: (w ++ '>' :: r2)).take (w.length + 3 + 1) =
          '<' :: '/' :: 'g' :: (w ++ ['>']) := by
        rw [show w.length + 3 + 1 = (w.length + 1) + 3 from by omega,
          show ('<' :: '/' :: 'g' :: (w ++ '>' :: r2)).take ((w.length + 1) + 3) =
            '<' :: '/' :: 'g' :: ((w ++ '>' :: r2).take (w.length + 1)) from rfl,
          take_append_units]
        rfl
      have hcw := counts_no_lt (w ++ ['>']) (by
        intro c hcmem
        rcases List.mem_append.mp hcmem with h | h
        · exact (isXmlWs_facts c (hws c h)).2.2
        · simp only [List.mem_singleton] at h
          subst h
          decide)
      have hbw : headIsWord (w ++ ['>']) = false :=
        headIsWord_ws_append w ['>'] hws (by decide)
      have t1 := toks_false_of_ne_lt '/' ('g' :: (w ++ ['>'])) (by decide)
      have t2 := toks_false_of_ne_lt 'g' (w ++ ['>']) (by decide)
      refine ⟨by omega, ?_, ⟨[], w, by rw [htk]; rfl, hws⟩⟩
      rw [htk]
      have egc : countClose ('<' :: '/' :: 'g' :: (w ++ ['>'])) = 1 := by
        rw [countClose_cons, isCloseTokAt_close_shape, hbw, countClose_cons, t1.2,
          countClose_cons, t2.2, hcw.2]
        simp
      have ego : countOpen ('<' :: '/' :: 'g' :: (w ++ ['>'])) = 0 := by
        rw [countOpen_cons, isOpenTokAt_close_shape, countOpen_cons, t1.1,
          countOpen_cons, t2.1, hcw.1]
        simp
      rw [egc, ego]
      simp
  | case3 rest d hw hd ih =>
    intro htight len hscan
    rw [scanBlock, if_neg hw, if_neg hd] at hscan
    cases hrec : scanBlock rest (d - 1) with
    | none =>
      rw [hrec] at hscan
      cases hscan
    | some n =>
      rw [hrec, Option.map_some'] at hscan
      injection hscan with hlen
      subst hlen
      have htight3 : closeTagsTight rest = true :=
        closeTagsTight_tail _ _ (closeTagsTight_tail _ _ (closeTagsTight_tail _ _ htight))
      obtain ⟨h4, hcnt, A2, mid, hdec, hws⟩ := ih htight3 n hrec
      have htk2 : ('<' :: '/' :: 'g' :: rest).take (n + 3) =
          '<' :: '/' :: 'g' :: rest.take n := rfl
      have hhw : headIsWord (rest.take n) = false := by
        rw [headIsWord_take rest n (by omega)]
        simpa using hw
      have t1 := toks_false_of_ne_lt '/' ('g' :: rest.take n) (by decide)
      have t2 := toks_false_of_ne_lt 'g' (rest.take n) (by decide)
      refine ⟨by omega, ?_, ?_⟩
      · have e1 : countClose ('<' :: '/' :: 'g' :: rest.take n) =
            1 + countClose (rest.take n) := by
          rw [countClose_cons, isCloseTokAt_close_shape, hhw, countClose_cons, t1.2,
            countClose_cons, t2.2]
          simp
        have e2 : countOpen ('<' :: '/' :: 'g' :: rest.take n) = countOpen (rest.take n) := by
          rw [countOpen_cons, isOpenTokAt_close_shape, countOpen_cons, t1.1,
            countOpen_cons, t2.1]
          simp
        rw [htk2, e1, e2]
        push_cast
        omega
      · rw [htk2, hdec]
        exact ⟨'<' :: '/' :: 'g' :: A2, mid, rfl, hws⟩
  | case4 rest d hw ih =>
    intro htight len hscan
    rw [scanBlock, if_pos hw] at hscan
    cases hrec : scanBlock ('g' :: rest) d with
    | none =>
      rw [hrec] at hscan
      cases hscan
    | some n =>
      rw [hrec, Option.map_some'] at hscan
      injection hscan with hlen
      subst hlen
      obtain ⟨h4, hcnt, A2, mid, hdec, hws⟩ :=
        ih (closeTagsTight_tail _ _ htight) n hrec
      obtain ⟨m, rfl⟩ : ∃ m, n = m + 4 := ⟨n - 4, by omega⟩
      have htk : ('g' :: rest).take (m + 4) = 'g' :: rest.take (m + 3) := rfl
      have htk2 : ('<' :: 'g' :: rest).take (m + 4 + 1) =
          '<' :: 'g' :: rest.take (m + 3) := rfl
      have hhw : headIsWord (rest.take (m + 3)) = true := by
        rw [headIsWord_take rest (m + 3) (by omega)]
        exact hw
      refine ⟨by omega, ?_, ?_⟩
      · have e1 : countClose ('<' :: 'g' :: rest.take (m + 3)) =
            countClose ('g' :: rest.take (m + 3)) := by
          rw [countClose_cons, isCloseTokAt_open_shape]
          simp
        have e2 : countOpen ('<' :: 'g' :: rest.take (m + 3)) =
            countOpen ('g' :: rest.take (m + 3)) := by
          rw [countOpen_cons, isOpenTokAt_open_shape, hhw]
          simp
        rw [htk2, e1, e2]
        rw [htk] at hcnt
        exact hcnt
      · rw [htk] at hdec
        exact ⟨'<' :: A2, mid, by rw [htk2, hdec]; rfl, hws⟩
  | case5 rest d hw ih =>
    intro htight len hscan
    rw [scanBlock, if_neg hw] at hscan
    cases hrec : scanBlock rest (d + 1) with
    | none =>
      rw [hrec] at hscan
      cases hscan
    | some n =>
      rw [hrec, Option.map_some'] at hscan
      injection hscan with hlen
      subst hlen
      have htight2 : closeTagsTight rest = true :=
        closeTagsTight_tail _ _ (closeTagsTight_tail _ _ htight)
      obtain ⟨h4, hcnt, A2, mid, hdec, hws⟩ := ih htight2 n hrec
      have htk2 : ('<' :: 'g' :: rest).take (n + 2) = '<' :: 'g' :: rest.take n := rfl
      have hhw : headIsWord (rest.take n) = false := by
        rw [headIsWord_take rest n (by omega)]
        simpa using hw
      have t2 := toks_false_of_ne_lt 'g' (rest.take n) (by decide)
      refine ⟨by omega, ?_, ?_⟩
      · have e1 : countClose ('<' :: 'g' :: rest.take n) = countClose (rest.take n) := by
          rw [countClose_cons, isCloseTokAt_open_shape, countClose_cons, t2.2]
          simp
        have e2 : countOpen ('<' :: 'g' :: rest.take n) = 1 + countOpen (rest.take n) := by
          rw [countOpen_cons, isOpenTokAt_open_shape, hhw, countOpen_cons, t2.1]
          simp
        rw [htk2, e1, e2]
        push_cast
        omega
      · rw [htk2, hdec]
        exact ⟨'<' :: 'g' :: A2, mid, rfl, hws⟩
  | case6 head rest d h1 h2 ih =>
    intro htight len hscan
    rw [scanBlock.eq_3 d head rest h1 h2] at hscan
    cases hrec : scanBlock rest d with
      | none =>
        rw [hrec] at hscan
        cases hscan
      | some n =>
        rw [hrec, Option.map_some'] at hscan
        injection hscan with hlen
        subst hlen
        obtain ⟨h4, hcnt, A2, mid, hdec, hws⟩ :=
          ih (closeTagsTight_tail _ _ htight) n hrec
        have htk2 : (head :: rest).take (n + 1) = head :: rest.take n := rfl
        have hind := no_token_inds head rest n (by omega) h1 h2
        refine ⟨by omega, ?_, ?_⟩
        · rw [htk2, countClose_cons, countOpen_cons, hind.2, hind.1]
          simpa using hcnt
        · rw [htk2, hdec]
          exact ⟨head :: A2, mid, rfl, hws⟩
  | case7 d =>
    intro _ len hscan
    cases hscan

lemma rfindSub_prefix (s sub : List Char) (stop i : Nat) (h : rfindSub s sub stop = some i) :
    sub.isPrefixOf (s.drop i) = true := by
  unfold rfindSub at h
  have hmem : i ∈ (List.range stop).filter
      (fun j => decide (j + sub.length ≤ stop) && sub.isPrefixOf (s.drop j)) := by
    obtain ⟨hne, hEq⟩ := List.mem_getLast?_eq_getLast (Option.mem_def.mpr h)
    rw [hEq]
    exact List.getLast_mem hne
  have hax := (List.mem_filter.mp hmem).2
  exact (Bool.and_eq_true_iff.mp hax).2

/-- Document for the C3 counterexample: the first `<g` substring before
`id="u"` belongs to a `<glyph>` element, not to a group tag. -/
def c3Text : List Char :=
  toL "<svg><glyph a=\"b\"/><path id=\"u\"/><g k=\"1\"></g></svg>"

def c3Snippet : List Char := toL "<glyph a=\"b\"/><path id=\"u\"/><g k=\"1\"></g>"

/-- C3 counterexample: on a well-formed document the block extractor
returns, for identifier `u`, a snippet that does not begin with an opening
tag of the tracked kind — the backward `rfind("<g")` lands on the `<g`
substring of `<glyph`.  The token counts of the snippet are still
balanced; only the begins-with-an-open-tag conjunct of the claim fails. -/
theorem c3_snippet_not_group_open :
    extract_tag_block_with_pos c3Text (toL "u") = some (c3Snippet, 5) ∧
    closeTagsTight c3Text = true ∧
    isOpenTokAt c3Snippet = false ∧
    countOpen c3Snippet = countClose c3Snippet :=
  ⟨by decide, by decide, by decide, by decide⟩

/-- C3 (amended): in a document whose close tags of the tracked kind are
immediately closed after optional whitespace (true of all well-formed
markup), every snippet the block extractor returns has equal counts of
open and close tokens of the tracked kind, ends with the close tag that
balances it (`</g` + whitespace + `>`), and begins with the two characters
`<g` — though not necessarily with an opening *tag* of the kind, as the
counterexample shows. -/
theorem c3_balanced_extraction_amended (svg_text element_id S : List Char) (p : Nat)
    (htight : closeTagsTight svg_text = true)
    (h : extract_tag_block_with_pos svg_text element_id = some (S, p)) :
    countOpen S = countClose S ∧
    (∃ T, S = '<' :: 'g' :: T) ∧
    (∃ A mid, S = A ++ ('<' :: '/' :: 'g' :: (mid ++ ['>'])) ∧
      ∀ c ∈ mid, isXmlWs c = true) := by
  unfold extract_tag_block_with_pos at h
  split at h
  · cases h
  split at h
  · cases h
  split at h
  · cases h
  rename_i _ idPos hfind _ openStart hrfind _ len hscan
  injection h with h
  simp only [Prod.mk.injEq] at h
  obtain ⟨hS, hp⟩ := h
  subst hp
  have htseg : closeTagsTight (svg_text.drop openStart) = true :=
    closeTagsTight_drop openStart svg_text htight
  obtain ⟨h4, hcnt, A, mid, hdec, hws⟩ := scanBlock_spec _ 0 htseg len hscan
  refine ⟨?_, ?_, ?_⟩
  · rw [← hS]
    omega
  · have hpre := rfindSub_prefix svg_text ("<g".toList) idPos openStart hrfind
    obtain ⟨t, ht⟩ := List.isPrefixOf_iff_prefix.mp hpre
    obtain ⟨m, rfl⟩ : ∃ m, len = m + 4 := ⟨len - 4, by omega⟩
    refine ⟨t.take (m + 2), ?_⟩
    rw [← hS, ← ht]
    rfl
  · rw [← hS]
    exact ⟨A, mid, hdec, hws⟩

/-- C3 witness: the amended balanced-extraction statement instantiated at
the scenario source and its `annotation_1` snippet. -/
theorem c3_balanced_extraction_amended_witness :
    countOpen c1GroupSnippet = countClose c1GroupSnippet ∧
    (∃ T, c1GroupSnippet = '<' :: 'g' :: T) ∧
    (∃ A mid, c1GroupSnippet = A ++ ('<' :: '/' :: 'g' :: (mid ++ ['>'])) ∧
      ∀ c ∈ mid, isXmlWs c = true) :=
  c3_balanced_extraction_amended c1Src (toL "annotation_1") c1GroupSnippet 52
    (by decide) (by decide)

end SimpleSVG
